import Mathlib

/-!
# Detective Quest: clue ledger, suspect index, exploration loop, verdict

A shallow embedding of `src/algoritmos_avancados.c`.

* A C string is the list of its bytes before the terminating NUL, each byte given by its
  `unsigned char` value; a `const char *` that may be `NULL` is an `Option CStr`.
* A pointer to a tree node is the subtree it points to, `null` being the `NULL` pointer.
* The globals `hash_table`, `suspeitos` and `num_suspeitos` are the record `Globais`, passed
  explicitly; `num_suspeitos` is the length of the list `suspeitos`.
* Standard input is the list of buffers that the successive successful `fgets` calls return; the
  empty list is end of input. `buffersLidos` computes this list from a byte stream with the
  model `fgets` of the library function and the buffer size `MAX_INPUT`.
* `malloc` is assumed to succeed (the failure paths call `exit`).
-/

set_option maxRecDepth 100000

namespace DetectiveQuest

/-! ## Strings -/

/-- Contents of a C string: the bytes before the terminating NUL. -/
abbrev CStr := List Nat

/-- Byte value of an ASCII character. -/
def ch (c : Char) : Nat := c.toNat

/-- Bytes of an ASCII string literal. -/
def cstr (s : String) : CStr := s.data.map ch

/-- Size of the bucket array (`#define HASH_SIZE 101`). -/
abbrev HASH_SIZE : Nat := 101

/-- Capacity of the suspect roster (`#define MAX_SUSPECTS 32`). -/
abbrev MAX_SUSPECTS : Nat := 32

/-- Size of the input buffer (`#define MAX_INPUT 200`). -/
abbrev MAX_INPUT : Nat := 200

/-- Largest value of the C type `int` (32 bits, `<limits.h>`). -/
abbrev INT_MAX : Int := 2147483647

/-- Library function `strlen`. -/
def strlen (s : CStr) : Nat := s.length

/-- Library function `strcmp`: the sign of the byte-wise lexicographic comparison, bytes compared
as `unsigned char`, the end of a string being smaller than any byte. -/
def strcmp : CStr → CStr → Int
  | [], [] => 0
  | [], _ :: _ => -1
  | _ :: _, [] => 1
  | a :: s, b :: t => if a < b then -1 else if b < a then 1 else strcmp s t

/-- Library function `tolower` in the C locale: only the ASCII capitals `A`..`Z` change. -/
def tolower (c : Nat) : Nat := if 65 ≤ c ∧ c ≤ 90 then c + 32 else c

/-- Library function `strcasecmp`: `strcmp` on the lower-cased bytes. -/
def strcasecmp (s t : CStr) : Int := strcmp (s.map tolower) (t.map tolower)

/-- A name as the specification compares it for the verdict: ASCII letter case ignored. -/
def semCaixa (s : CStr) : CStr := s.map tolower

/-! ## Clue ledger (binary search tree of clue texts) -/

/-- Clue tree: `typedef struct PistaNode`; `null` is the `NULL` pointer. -/
inductive PistaNode where
  | null : PistaNode
  | node (texto : CStr) (esq dir : PistaNode) : PistaNode
  deriving DecidableEq, Repr

/-- Function `inserirPista` (lines 85-107): returns the tree that `*raiz` holds after the call. -/
def inserirPista : PistaNode → Option CStr → PistaNode
  | raiz, none => raiz
  | PistaNode.null, some texto =>
    if strlen texto = 0 then PistaNode.null
    else PistaNode.node texto PistaNode.null PistaNode.null
  | PistaNode.node t esq dir, some texto =>
    if strlen texto = 0 then PistaNode.node t esq dir
    else
      let cmp := strcmp texto t
      if cmp = 0 then PistaNode.node t esq dir
      else if cmp < 0 then PistaNode.node t (inserirPista esq (some texto)) dir
      else PistaNode.node t esq (inserirPista dir (some texto))

/-- Function `exibirPistas` (lines 110-115): the texts printed, in the order printed. -/
def exibirPistas : PistaNode → List CStr
  | PistaNode.null => []
  | PistaNode.node t esq dir => exibirPistas esq ++ t :: exibirPistas dir

/-- Successive `inserirPista` calls on the same root, one per text of the list. -/
def inserirPistas (raiz : PistaNode) (textos : List CStr) : PistaNode :=
  textos.foldl (fun r t => inserirPista r (some t)) raiz

/-- Strictly ascending under `strcmp`. -/
abbrev Crescente (l : List CStr) : Prop := l.Pairwise (fun a b => strcmp a b < 0)

/-- Ledger contents as the specification words them: the distinct non-empty texts of the
sequence, sorted in ascending order. -/
def distintasOrdenadas (textos : List CStr) : List CStr :=
  List.insertionSort (fun a b => strcmp a b ≤ 0) ((textos.filter (fun t => t ≠ [])).dedup)

/-! ## Suspect index (chained hash table) and roster -/

/-- Chain node: `typedef struct HashNode`; the `next` pointer is the tail of the list. -/
structure HashNode where
  chave : CStr
  valor : CStr
  deriving DecidableEq, Repr

/-- Roster entry: `typedef struct SuspeitoCount`. The C `int` count is an unbounded integer here:
the model agrees with the code as long as no increment passes `INT_MAX` (signed overflow, which
needs 2^31 increments from 0, is undefined in C); statements about an incremented count carry
that bound. -/
structure SuspeitoCount where
  nome : CStr
  contagem : Int
  deriving DecidableEq, Repr

/-- Loop of `hash_func` (lines 137-140) on an `unsigned long` of 64 bits. -/
def hash_loop : Nat → CStr → Nat
  | h, [] => h
  | h, c :: s => hash_loop ((((h * 2 ^ 5) % 2 ^ 64 + h) % 2 ^ 64 + c % 256) % 2 ^ 64) s

/-- Function `hash_func` (lines 135-142). -/
def hash_func (s : CStr) : Nat := (hash_loop 5381 s % HASH_SIZE) % 2 ^ 32

/-- Bucket of a key: the index `hash_func(chave)` into the array `hash_table[HASH_SIZE]`. -/
def bucket (s : CStr) : Fin HASH_SIZE :=
  ⟨hash_func s, by
    unfold hash_func
    exact lt_of_le_of_lt (Nat.mod_le _ _) (Nat.mod_lt _ (by decide))⟩

/-- The globals `hash_table`, `suspeitos` and `num_suspeitos` (the length of `suspeitos`). -/
structure Globais where
  hash_table : Fin HASH_SIZE → List HashNode
  suspeitos : List SuspeitoCount

/-- Initial value of the globals: every bucket `NULL`, `num_suspeitos = 0`. -/
def Globais.inicial : Globais := ⟨fun _ => [], []⟩

/-- First loop of `inserirNaHash` (lines 149-157): the chain with the value of the first node
whose key is `chave` replaced, or `none` when the walk reaches the end of the chain. -/
def substituirValor : List HashNode → CStr → CStr → Option (List HashNode)
  | [], _, _ => none
  | n :: resto, chave, valor =>
    if strcmp n.chave chave = 0 then some (⟨n.chave, valor⟩ :: resto)
    else (substituirValor resto chave valor).map (fun r => n :: r)

/-- Second loop of `inserirNaHash` (lines 170-172): is some roster name equal to `valor`? -/
def suspeitoRegistrado : List SuspeitoCount → CStr → Bool
  | [], _ => false
  | s :: resto, valor => if strcmp s.nome valor = 0 then true else suspeitoRegistrado resto valor

/-- Function `inserirNaHash` (lines 145-180). -/
def inserirNaHash (g : Globais) (chave valor : Option CStr) : Globais :=
  match chave, valor with
  | some k, some v =>
    let idx := bucket k
    match substituirValor (g.hash_table idx) k v with
    | some cadeia => ⟨Function.update g.hash_table idx cadeia, g.suspeitos⟩
    | none =>
      let tabela := Function.update g.hash_table idx (⟨k, v⟩ :: g.hash_table idx)
      if suspeitoRegistrado g.suspeitos v then ⟨tabela, g.suspeitos⟩
      else if g.suspeitos.length < MAX_SUSPECTS then ⟨tabela, g.suspeitos ++ [⟨v, 0⟩]⟩
      else ⟨tabela, g.suspeitos⟩
  | _, _ => g

/-- Loop of `encontrarSuspeito` (lines 191-196). -/
def buscarNaCadeia : List HashNode → CStr → Option CStr
  | [], _ => none
  | n :: resto, chave => if strcmp n.chave chave = 0 then some n.valor else buscarNaCadeia resto chave

/-- Function `encontrarSuspeito` (lines 187-198); `none` is the `NULL` result. -/
def encontrarSuspeito (g : Globais) (chave : Option CStr) : Option CStr :=
  match chave with
  | none => none
  | some k => buscarNaCadeia (g.hash_table (bucket k)) k

/-- Successive `inserirNaHash` calls, one per pair of the list. -/
def inserirPares (g : Globais) (pares : List (Option CStr × Option CStr)) : Globais :=
  pares.foldl (fun acc p => inserirNaHash acc p.1 p.2) g

/-! ## Map and exploration loop -/

/-- Room tree: `typedef struct Sala`; `null` is the `NULL` pointer. -/
inductive Sala where
  | null : Sala
  | node (nome : CStr) (pista : Option CStr) (esq dir : Sala) : Sala
  deriving DecidableEq, Repr

/-- Field `pista` of the room a pointer refers to. -/
def Sala.pista : Sala → Option CStr
  | Sala.null => none
  | Sala.node _ p _ _ => p

/-- Field `esq` of the room a pointer refers to. -/
def Sala.esq : Sala → Sala
  | Sala.null => Sala.null
  | Sala.node _ _ e _ => e

/-- Field `dir` of the room a pointer refers to. -/
def Sala.dir : Sala → Sala
  | Sala.null => Sala.null
  | Sala.node _ _ _ d => d

/-- Tally loop of `explorarSalas` (lines 239-244): the first roster entry named `sus` gets its
count incremented. -/
def incrementarContagem : List SuspeitoCount → CStr → List SuspeitoCount
  | [], _ => []
  | s :: resto, sus =>
    if strcmp s.nome sus = 0 then ⟨s.nome, s.contagem + 1⟩ :: resto
    else s :: incrementarContagem resto sus

/-- State of an exploration: the cursor `pos`, the ledger `*raizPistas` and the globals. -/
structure Sessao where
  pos : Sala
  raizPistas : PistaNode
  g : Globais

/-- Room-entry step of `explorarSalas` (lines 230-250), run at the top of every iteration. -/
def entrarSala (s : Sessao) : Sessao :=
  match s.pos.pista with
  | some pista =>
    let raiz := inserirPista s.raizPistas (some pista)
    match encontrarSuspeito s.g (some pista) with
    | some sus => ⟨s.pos, raiz, ⟨s.g.hash_table, incrementarContagem s.g.suspeitos sus⟩⟩
    | none => ⟨s.pos, raiz, s.g⟩
  | none => s

/-- Command dispatch of `explorarSalas` (lines 259-272) on the buffer read by `fgets`: `none` is
`break`, `some pos` is the cursor with which the next iteration starts. An empty buffer has the
terminating NUL at index 0. -/
def executarComando (pos : Sala) (entrada : CStr) : Option Sala :=
  let cmd := entrada.headD 0
  if cmd = ch '\n' then some pos
  else if cmd = ch 's' ∨ cmd = ch 'S' then none
  else if cmd = ch 'e' ∨ cmd = ch 'E' then
    (if pos.esq ≠ Sala.null then some pos.esq else some pos)
  else if cmd = ch 'd' ∨ cmd = ch 'D' then
    (if pos.dir ≠ Sala.null then some pos.dir else some pos)
  else some pos

/-- The `while (1)` loop of `explorarSalas` (lines 229-273): every iteration runs the room-entry
step, then reads one buffer; the loop ends on `break` or when `fgets` fails. -/
def explorarLoop : Sessao → List CStr → Sessao
  | s, [] => entrarSala s
  | s, entrada :: resto =>
    let s1 := entrarSala s
    match executarComando s1.pos entrada with
    | none => s1
    | some pos => explorarLoop ⟨pos, s1.raizPistas, s1.g⟩ resto

/-- Function `explorarSalas` (lines 220-275): the state when it returns. -/
def explorarSalas (atual : Sala) (raizPistas : PistaNode) (g : Globais) (stdin : List CStr) :
    Sessao :=
  match atual with
  | Sala.null => ⟨Sala.null, raizPistas, g⟩
  | Sala.node n p e d => explorarLoop ⟨Sala.node n p e d, raizPistas, g⟩ stdin

/-- State at the command prompt of the iteration that starts with state `s`: the room-entry step
has run and `fgets` is waiting. -/
def noPrompt (s : Sessao) : Sessao := entrarSala s

/-- From the state `s` at a command prompt and the buffer read there to the state at the next
command prompt; `none` when the loop ends instead. -/
def proximoPrompt (s : Sessao) (entrada : CStr) : Option Sessao :=
  (executarComando s.pos entrada).map (fun pos => entrarSala ⟨pos, s.raizPistas, s.g⟩)

/-! ## Verdict -/

/-- Loop of `verificarSuspeitoFinal` (lines 280-284). -/
def verificarLoop : List SuspeitoCount → CStr → Int
  | [], _ => 0
  | s :: resto, nome =>
    if strcasecmp s.nome nome = 0 then (if s.contagem ≥ 2 then 1 else 0)
    else verificarLoop resto nome

/-- Function `verificarSuspeitoFinal` (lines 278-286). -/
def verificarSuspeitoFinal (g : Globais) (nomeAcusado : Option CStr) : Int :=
  match nomeAcusado with
  | none => 0
  | some nome => verificarLoop g.suspeitos nome

/-! ## The fixed map and associations of `main` -/

/-- Function `criarSala` (lines 62-72): a room without children. -/
def criarSala (nome : CStr) (pista : Option CStr) : Sala := Sala.node nome pista Sala.null Sala.null

/-- Room `salaEstar` of `main` with its children linked (lines 302-310). -/
def salaEstar : Sala :=
  Sala.node (cstr "Sala de Estar") (some (cstr "Pegada molhada perto do sofa"))
    (criarSala (cstr "Biblioteca") (some (cstr "Pagina rasgada de um diario")))
    (criarSala (cstr "Sala de Jantar") (some (cstr "Marca de vinho na toalha")))

/-- Room `cozinha` of `main` with its children linked (lines 303-311). -/
def cozinha : Sala :=
  Sala.node (cstr "Cozinha") (some (cstr "Faca com cabo quebrado"))
    (criarSala (cstr "Corredor") none)
    (criarSala (cstr "Quarto") (some (cstr "Bilhete com uma inicial: 'M'")))

/-- Room `hall` of `main`, the root of the map (lines 301-311). -/
def hall : Sala := Sala.node (cstr "Hall de Entrada") none salaEstar cozinha

/-- Globals after the five `inserirNaHash` calls of `main` (lines 315-319). -/
def globaisMain : Globais :=
  inserirPares Globais.inicial
    [(some (cstr "Pegada molhada perto do sofa"), some (cstr "Marcos")),
     (some (cstr "Faca com cabo quebrado"), some (cstr "Ricardo")),
     (some (cstr "Pagina rasgada de um diario"), some (cstr "Mariana")),
     (some (cstr "Marca de vinho na toalha"), some (cstr "Marcos")),
     (some (cstr "Bilhete com uma inicial: 'M'"), some (cstr "Marcos"))]

/-- The exploration of `main` (line 329) on the given input. -/
def explorarMain (stdin : List CStr) : Sessao :=
  explorarSalas hall PistaNode.null globaisMain stdin

/-- State of the exploration of `main` at the command prompt of `Sala de Estar`, reached with the
input line "e": the hall has no clue, so entering the hall changed nothing. -/
def promptSalaEstar : Sessao := noPrompt ⟨salaEstar, PistaNode.null, globaisMain⟩

/-! ## Reachable states and example states -/

/-- Globals reachable from the initial ones by `inserirNaHash` calls and room-entry steps. -/
inductive Alcancavel : Globais → Prop
  | inicial : Alcancavel Globais.inicial
  | inserir (g : Globais) (chave valor : Option CStr) :
      Alcancavel g → Alcancavel (inserirNaHash g chave valor)
  | entrar (s : Sessao) : Alcancavel s.g → Alcancavel (entrarSala s).g

/-- Thirty-two associations with pairwise different keys and suspect names: pair `i` has the key
`k`, `A + i` and the suspect name `s`, `A + i`. -/
def paresLotacao : List (Option CStr × Option CStr) :=
  (List.range 32).map (fun i => (some [ch 'k', 65 + i], some [ch 's', 65 + i]))

/-- Globals after inserting `paresLotacao` into the initial table: the roster is full. -/
def globaisLotados : Globais := inserirPares Globais.inicial paresLotacao

/-- Globals after `inserirNaHash("a", "Marcos")` and `inserirNaHash("b", "MARCOS")`. -/
def globaisCaixa : Globais :=
  inserirPares Globais.inicial
    [(some (cstr "a"), some (cstr "Marcos")), (some (cstr "b"), some (cstr "MARCOS"))]

/-- Leaf room whose clue is "b". -/
def salaB : Sala := criarSala (cstr "Sala B") (some (cstr "b"))

/-- Globals after two room-entry steps in `salaB`, starting from `globaisCaixa`. -/
def globaisCaixaDuasVisitas : Globais :=
  (entrarSala ⟨salaB, PistaNode.null, (entrarSala ⟨salaB, PistaNode.null, globaisCaixa⟩).g⟩).g

/-! ## Standard input as a byte stream -/

/-- Reading part of the library function `fgets`: at most `k` bytes are taken from the stream,
stopping after a newline; the result is the buffer contents and the rest of the stream. -/
def lerLinha : Nat → List Nat → CStr × List Nat
  | 0, stdin => ([], stdin)
  | _ + 1, [] => ([], [])
  | k + 1, c :: stdin =>
    if c = ch '\n' then ([c], stdin)
    else ((c :: (lerLinha k stdin).1), (lerLinha k stdin).2)

/-- Library function `fgets(buf, n, stdin)`: `none` (the `NULL` result) at end of input, otherwise
the buffer of at most `n - 1` bytes and the rest of the stream. -/
def fgets (n : Nat) (stdin : List Nat) : Option (CStr × List Nat) :=
  match stdin with
  | [] => none
  | c :: resto => some (lerLinha (n - 1) (c :: resto))

/-- Buffers returned by successive `fgets(entrada, sizeof(entrada), stdin)` calls until one
fails; `fuel` bounds the number of calls. -/
def lerBuffers : Nat → List Nat → List CStr
  | 0, _ => []
  | fuel + 1, stdin =>
    match fgets MAX_INPUT stdin with
    | none => []
    | some (entrada, resto) => entrada :: lerBuffers fuel resto

/-- All the buffers that `fgets` delivers from a byte stream: every successful call takes at
least one byte, so the length of the stream is enough fuel. -/
def buffersLidos (stdin : List Nat) : List CStr := lerBuffers stdin.length stdin

/-- Byte stream of a list of input lines: every line is followed by a newline. -/
def juntarLinhas : List CStr → List Nat
  | [] => []
  | linha :: resto => linha ++ ch '\n' :: juntarLinhas resto

/-- The `while (1)` loop of `explorarSalas` (lines 229-273) as `explorarLoop`, returning also the
rooms entered, one per iteration, and the buffers left unread when the loop ends. -/
def explorarLoopRastro : Sessao → List CStr → Sessao × List Sala × List CStr
  | s, [] => (entrarSala s, [s.pos], [])
  | s, entrada :: resto =>
    let s1 := entrarSala s
    match executarComando s1.pos entrada with
    | none => (s1, [s.pos], resto)
    | some pos =>
      let r := explorarLoopRastro ⟨pos, s1.raizPistas, s1.g⟩ resto
      (r.1, s.pos :: r.2.1, r.2.2)

/-- One full iteration of the loop that does not end it: the room-entry step, then the cursor
moves as the buffer commands. -/
def iterar (s : Sessao) (entrada : CStr) : Sessao :=
  match executarComando (entrarSala s).pos entrada with
  | none => entrarSala s
  | some pos => ⟨pos, (entrarSala s).raizPistas, (entrarSala s).g⟩

/-- Does the buffer end the exploration (first byte `s` or `S`)? -/
def ehSair (entrada : CStr) : Bool := entrada.headD 0 = ch 's' ∨ entrada.headD 0 = ch 'S'

/-- Leaf room whose clue is the empty string. -/
def salaPistaVazia : Sala := criarSala (cstr "Sala") (some [])

/-- Globals after `inserirNaHash("", "Marcos")` on the initial table. -/
def globaisPistaVazia : Globais :=
  inserirNaHash Globais.inicial (some []) (some (cstr "Marcos"))

/-- All the keys stored in the table, bucket after bucket. -/
def chavesDaTabela (g : Globais) : List CStr :=
  (List.finRange HASH_SIZE).flatMap (fun i => (g.hash_table i).map HashNode.chave)

/-- Well-formed table: no chain holds a key twice, and every node is in the bucket that
`hash_func` gives for its key. -/
def TabelaBemFormada (g : Globais) : Prop :=
  (∀ i : Fin HASH_SIZE, ((g.hash_table i).map HashNode.chave).Nodup) ∧
    (∀ i : Fin HASH_SIZE, ∀ n ∈ g.hash_table i, hash_func n.chave = i.val)

/-- Function `explorarSalas` (lines 220-275) as `explorarSalas`, returning also the rooms entered
and the buffers left unread: with a `NULL` map nothing is entered and nothing is read. -/
def explorarSalasRastro (atual : Sala) (raizPistas : PistaNode) (g : Globais)
    (stdin : List CStr) : Sessao × List Sala × List CStr :=
  match atual with
  | Sala.null => (⟨Sala.null, raizPistas, g⟩, [], stdin)
  | Sala.node n p e d => explorarLoopRastro ⟨Sala.node n p e d, raizPistas, g⟩ stdin

/-- Buffer that `fgets` delivers for an input line of at most `MAX_INPUT - 2` bytes: the line
with its newline. -/
def bufferDaLinha (linha : CStr) : CStr := linha ++ [ch '\n']

/-- Input line that `fgets` can deliver in one buffer: at most `MAX_INPUT - 2` bytes, none of
them a newline. -/
def LinhaCurta (linha : CStr) : Prop := linha.length ≤ MAX_INPUT - 2 ∧ ch '\n' ∉ linha

instance instDecidableLinhaCurta (linha : CStr) : Decidable (LinhaCurta linha) := by
  unfold LinhaCurta
  exact inferInstance

/-- Two input lines, the first one longer than the buffer: 199 times `x` followed by `s`, and
the line `e`. -/
def linhasLongas : List CStr := [List.replicate 199 (ch 'x') ++ [ch 's'], cstr "e"]

/-- Number of levels of a map: 0 for the `NULL` map. -/
def Sala.niveis : Sala → Nat
  | Sala.null => 0
  | Sala.node _ _ e d => max e.niveis d.niveis + 1

/-- Height of a map: the number of moves on its longest way down. -/
def Sala.altura (raiz : Sala) : Nat := raiz.niveis - 1

/-- Room of a map: `SalaDe r raiz` says that the room `r` is `raiz` or lies below it. -/
inductive SalaDe : Sala → Sala → Prop
  | aqui (r : Sala) : SalaDe r r
  | esq (r : Sala) (n : CStr) (p : Option CStr) (e d : Sala) :
      SalaDe r e → SalaDe r (Sala.node n p e d)
  | dir (r : Sala) (n : CStr) (p : Option CStr) (e d : Sala) :
      SalaDe r d → SalaDe r (Sala.node n p e d)

/-- Child room: `Filho b a` says that `b` is a room and is the left or right child of `a`. -/
def Filho (b a : Sala) : Prop := b ≠ Sala.null ∧ (b = a.esq ∨ b = a.dir)

/-- Number of successful moves in a list of rooms entered: the places where the next room is
another one. -/
def contarMovimentos : List Sala → Nat
  | [] => 0
  | a :: resto =>
    match resto with
    | [] => 0
    | b :: _ => (if b ≠ a then 1 else 0) + contarMovimentos resto

/-- Direction of a move command. -/
inductive Direcao where
  | esquerda : Direcao
  | direita : Direcao
  deriving DecidableEq, Repr

/-- Does the input, read from the cursor `pos` on, consist only of move commands that enter an
existing child, up to the first exit line or the end of the input? -/
def soMovimentos : Sala → List CStr → Bool
  | _, [] => true
  | pos, entrada :: resto =>
    if entrada.headD 0 = ch 's' ∨ entrada.headD 0 = ch 'S' then true
    else if entrada.headD 0 = ch 'e' ∨ entrada.headD 0 = ch 'E' then
      decide (pos.esq ≠ Sala.null) && soMovimentos pos.esq resto
    else if entrada.headD 0 = ch 'd' ∨ entrada.headD 0 = ch 'D' then
      decide (pos.dir ≠ Sala.null) && soMovimentos pos.dir resto
    else false

/-- Directions of the move commands of the input before the first exit line. -/
def movimentos : List CStr → List Direcao
  | [] => []
  | entrada :: resto =>
    if entrada.headD 0 = ch 's' ∨ entrada.headD 0 = ch 'S' then []
    else if entrada.headD 0 = ch 'e' ∨ entrada.headD 0 = ch 'E' then
      Direcao.esquerda :: movimentos resto
    else if entrada.headD 0 = ch 'd' ∨ entrada.headD 0 = ch 'D' then
      Direcao.direita :: movimentos resto
    else movimentos resto

/-- One iteration that enters the room and then moves to the child in the given direction. -/
def descer (s : Sessao) (d : Direcao) : Sessao :=
  match d with
  | Direcao.esquerda => ⟨s.pos.esq, (entrarSala s).raizPistas, (entrarSala s).g⟩
  | Direcao.direita => ⟨s.pos.dir, (entrarSala s).raizPistas, (entrarSala s).g⟩

/-- Is every step of the list of directions a move to an existing child, starting at `pos`? -/
def caminhoValido : Sala → List Direcao → Bool
  | _, [] => true
  | pos, Direcao.esquerda :: resto => decide (pos.esq ≠ Sala.null) && caminhoValido pos.esq resto
  | pos, Direcao.direita :: resto => decide (pos.dir ≠ Sala.null) && caminhoValido pos.dir resto

/-- The seven ways down in the map of `main`. -/
def caminhosDoMapa : List (List Direcao) :=
  [[], [Direcao.esquerda], [Direcao.direita],
   [Direcao.esquerda, Direcao.esquerda], [Direcao.esquerda, Direcao.direita],
   [Direcao.direita, Direcao.esquerda], [Direcao.direita, Direcao.direita]]

/-! ## Facts about the string functions -/

theorem strcmp_self (a : CStr) : strcmp a a = 0 := by
  induction a with
  | nil => simp [strcmp]
  | cons x s ih => simp [strcmp, ih]

theorem strcmp_eq_zero_iff (a b : CStr) : strcmp a b = 0 ↔ a = b := by
  induction a generalizing b with
  | nil => cases b <;> simp [strcmp]
  | cons x s ih =>
    cases b with
    | nil => simp [strcmp]
    | cons y t =>
      simp only [strcmp, List.cons.injEq]
      split_ifs with h1 h2
      · constructor
        · intro h; exact absurd h (by decide)
        · rintro ⟨rfl, _⟩; exact absurd h1 (lt_irrefl _)
      · constructor
        · intro h; exact absurd h (by decide)
        · rintro ⟨rfl, _⟩; exact absurd h2 (lt_irrefl _)
      · rw [ih]
        constructor
        · intro h; exact ⟨by omega, h⟩
        · exact fun h => h.2

theorem strcmp_neg_iff_pos (a b : CStr) : strcmp a b < 0 ↔ 0 < strcmp b a := by
  induction a generalizing b with
  | nil => cases b <;> simp [strcmp]
  | cons x s ih =>
    cases b with
    | nil => simp [strcmp]
    | cons y t =>
      simp only [strcmp]
      split_ifs <;> first | omega | simp | exact ih t

theorem strcmp_lt_trans (a b c : CStr) (hab : strcmp a b < 0) (hbc : strcmp b c < 0) :
    strcmp a c < 0 := by
  induction a generalizing b c with
  | nil =>
    cases c with
    | nil => cases b <;> simp [strcmp] at hab hbc
    | cons z u => simp [strcmp]
  | cons x s ih =>
    cases b with
    | nil => simp [strcmp] at hab
    | cons y t =>
      cases c with
      | nil => simp [strcmp] at hbc
      | cons z u =>
        simp only [strcmp] at hab hbc ⊢
        split_ifs at hab hbc ⊢ <;> first | omega | exact ih t u hab hbc

theorem strcmp_le_total (a b : CStr) : strcmp a b ≤ 0 ∨ strcmp b a ≤ 0 := by
  by_cases h : strcmp a b ≤ 0
  · exact Or.inl h
  · right
    have h1 : 0 < strcmp a b := by omega
    have := (strcmp_neg_iff_pos b a).2 h1
    omega

theorem strcmp_le_iff (a b : CStr) : strcmp a b ≤ 0 ↔ strcmp a b < 0 ∨ a = b := by
  rw [← strcmp_eq_zero_iff]
  omega

theorem strcmp_le_trans (a b c : CStr) (hab : strcmp a b ≤ 0) (hbc : strcmp b c ≤ 0) :
    strcmp a c ≤ 0 := by
  rcases (strcmp_le_iff a b).1 hab with h1 | rfl
  · rcases (strcmp_le_iff b c).1 hbc with h2 | rfl
    · exact le_of_lt (strcmp_lt_trans a b c h1 h2)
    · exact hab
  · exact hbc

theorem strcmp_le_antisymm (a b : CStr) (hab : strcmp a b ≤ 0) (hba : strcmp b a ≤ 0) :
    a = b := by
  rcases (strcmp_le_iff a b).1 hab with h1 | h
  · have := (strcmp_neg_iff_pos a b).1 h1
    omega
  · exact h

/-! ## Facts about the clue ledger -/

theorem inserirPista_vazio (raiz : PistaNode) : inserirPista raiz (some []) = raiz := by
  cases raiz <;> simp [inserirPista, strlen]

theorem mem_exibir_inserir (raiz : PistaNode) (x y : CStr) (hx : x ≠ []) :
    y ∈ exibirPistas (inserirPista raiz (some x)) ↔ y = x ∨ y ∈ exibirPistas raiz := by
  have hlen : ¬ strlen x = 0 := by
    simpa [strlen] using hx
  induction raiz with
  | null => simp [inserirPista, hlen, exibirPistas]
  | node t esq dir ihe ihd =>
    simp only [inserirPista, hlen, if_false]
    split_ifs with h0 h1
    · have hxt : x = t := (strcmp_eq_zero_iff x t).1 h0
      subst hxt
      simp only [exibirPistas, List.mem_append, List.mem_cons]
      tauto
    · simp only [exibirPistas, List.mem_append, List.mem_cons, ihe]
      tauto
    · simp only [exibirPistas, List.mem_append, List.mem_cons, ihd]
      tauto

theorem crescente_inserir (raiz : PistaNode) (x : CStr) (h : Crescente (exibirPistas raiz)) :
    Crescente (exibirPistas (inserirPista raiz (some x))) := by
  by_cases hx : x = []
  · subst hx
    rw [inserirPista_vazio]
    exact h
  have hlen : ¬ strlen x = 0 := by
    simpa [strlen] using hx
  induction raiz with
  | null => simp [inserirPista, hlen, exibirPistas, Crescente]
  | node t esq dir ihe ihd =>
    simp only [exibirPistas, Crescente, List.pairwise_append, List.pairwise_cons,
      List.mem_cons] at h
    obtain ⟨he, ⟨htd, hd⟩, hed⟩ := h
    simp only [inserirPista, hlen, if_false]
    split_ifs with h0 h1
    · simp only [exibirPistas, Crescente, List.pairwise_append, List.pairwise_cons,
        List.mem_cons]
      exact ⟨he, ⟨htd, hd⟩, hed⟩
    · simp only [exibirPistas, Crescente, List.pairwise_append, List.pairwise_cons,
        List.mem_cons]
      refine ⟨ihe he, ⟨htd, hd⟩, ?_⟩
      intro a ha b hb
      rcases (mem_exibir_inserir esq x a hx).1 ha with rfl | ha
      · rcases hb with rfl | hb
        · exact h1
        · exact strcmp_lt_trans _ _ _ h1 (htd b hb)
      · exact hed a ha b hb
    · have h2 : strcmp t x < 0 := by
        rw [strcmp_neg_iff_pos]
        omega
      simp only [exibirPistas, Crescente, List.pairwise_append, List.pairwise_cons,
        List.mem_cons]
      refine ⟨he, ⟨?_, ihd hd⟩, ?_⟩
      · intro b hb
        rcases (mem_exibir_inserir dir x b hx).1 hb with rfl | hb
        · exact h2
        · exact htd b hb
      · intro a ha b hb
        rcases hb with rfl | hb
        · exact hed a ha b (Or.inl rfl)
        · rcases (mem_exibir_inserir dir x b hx).1 hb with rfl | hb
          · exact strcmp_lt_trans _ _ _ (hed a ha t (Or.inl rfl)) h2
          · exact hed a ha b (Or.inr hb)

theorem crescente_inserirPistas (textos : List CStr) (raiz : PistaNode)
    (h : Crescente (exibirPistas raiz)) :
    Crescente (exibirPistas (inserirPistas raiz textos)) := by
  induction textos generalizing raiz with
  | nil => exact h
  | cons x resto ih => exact ih _ (crescente_inserir raiz x h)

theorem mem_exibir_inserirPistas (textos : List CStr) (raiz : PistaNode) (y : CStr) :
    y ∈ exibirPistas (inserirPistas raiz textos) ↔
      y ∈ exibirPistas raiz ∨ (y ≠ [] ∧ y ∈ textos) := by
  induction textos generalizing raiz with
  | nil => simp [inserirPistas]
  | cons x resto ih =>
    have step : inserirPistas raiz (x :: resto) =
        inserirPistas (inserirPista raiz (some x)) resto := rfl
    rw [step, ih]
    by_cases hx : x = []
    · subst hx
      rw [inserirPista_vazio]
      simp only [List.mem_cons]
      constructor
      · rintro (h | ⟨h1, h2⟩)
        · exact Or.inl h
        · exact Or.inr ⟨h1, Or.inr h2⟩
      · rintro (h | ⟨h1, h2 | h2⟩)
        · exact Or.inl h
        · exact absurd h2 h1
        · exact Or.inr ⟨h1, h2⟩
    · rw [mem_exibir_inserir raiz x y hx]
      simp only [List.mem_cons]
      constructor
      · rintro ((rfl | h) | ⟨h1, h2⟩)
        · exact Or.inr ⟨hx, Or.inl rfl⟩
        · exact Or.inl h
        · exact Or.inr ⟨h1, Or.inr h2⟩
      · rintro (h | ⟨h1, rfl | h2⟩)
        · exact Or.inl (Or.inr h)
        · exact Or.inl (Or.inl rfl)
        · exact Or.inr ⟨h1, h2⟩

theorem crescente_nodup (l : List CStr) (h : Crescente l) : l.Nodup := by
  refine List.Pairwise.imp ?_ h
  intro a b hab heq
  subst heq
  rw [strcmp_self] at hab
  exact absurd hab (lt_irrefl _)

theorem crescente_sorted_le (l : List CStr) (h : Crescente l) :
    l.Sorted (fun a b => strcmp a b ≤ 0) :=
  List.Pairwise.imp (fun hab => le_of_lt hab) h

theorem crescente_ext (l₁ l₂ : List CStr) (h₁ : Crescente l₁) (h₂ : Crescente l₂)
    (hmem : ∀ x, x ∈ l₁ ↔ x ∈ l₂) : l₁ = l₂ := by
  haveI : IsAntisymm CStr (fun a b => strcmp a b ≤ 0) := ⟨strcmp_le_antisymm⟩
  refine List.eq_of_perm_of_sorted ?_ (crescente_sorted_le l₁ h₁) (crescente_sorted_le l₂ h₂)
  exact (List.perm_ext_iff_of_nodup (crescente_nodup l₁ h₁) (crescente_nodup l₂ h₂)).2 hmem

theorem exibir_eq_distintasOrdenadas (textos : List CStr) :
    exibirPistas (inserirPistas PistaNode.null textos) = distintasOrdenadas textos := by
  haveI : IsAntisymm CStr (fun a b => strcmp a b ≤ 0) := ⟨strcmp_le_antisymm⟩
  haveI : IsTotal CStr (fun a b => strcmp a b ≤ 0) := ⟨strcmp_le_total⟩
  haveI : IsTrans CStr (fun a b => strcmp a b ≤ 0) := ⟨strcmp_le_trans⟩
  have hasc : Crescente (exibirPistas (inserirPistas PistaNode.null textos)) :=
    crescente_inserirPistas textos PistaNode.null List.Pairwise.nil
  have hperm := List.perm_insertionSort (fun a b => strcmp a b ≤ 0)
    ((textos.filter (fun t => t ≠ [])).dedup)
  refine List.eq_of_perm_of_sorted ?_ (crescente_sorted_le _ hasc)
    (List.sorted_insertionSort (fun a b => strcmp a b ≤ 0) _)
  refine List.Perm.trans ?_ hperm.symm
  refine (List.perm_ext_iff_of_nodup (crescente_nodup _ hasc) (List.nodup_dedup _)).2 ?_
  intro x
  rw [mem_exibir_inserirPistas]
  simp [exibirPistas, List.mem_dedup, List.mem_filter, and_comm]

/-! ## Facts about the suspect index -/

theorem substituirValor_none_iff (c : List HashNode) (k v : CStr) :
    substituirValor c k v = none ↔ buscarNaCadeia c k = none := by
  induction c with
  | nil => simp [substituirValor, buscarNaCadeia]
  | cons n resto ih =>
    simp only [substituirValor, buscarNaCadeia]
    split_ifs with h
    · simp
    · simpa using ih

theorem buscar_substituir_mesma (c c1 : List HashNode) (k v : CStr)
    (h : substituirValor c k v = some c1) : buscarNaCadeia c1 k = some v := by
  induction c generalizing c1 with
  | nil => simp [substituirValor] at h
  | cons n resto ih =>
    simp only [substituirValor] at h
    split_ifs at h with h0
    · simp only [Option.some.injEq] at h
      subst h
      simp [buscarNaCadeia, h0]
    · cases hr : substituirValor resto k v with
      | none => simp [hr] at h
      | some r =>
        simp only [hr, Option.map_some', Option.some.injEq] at h
        subst h
        simp [buscarNaCadeia, h0, ih r hr]

theorem buscar_substituir_outra (c c1 : List HashNode) (k v x : CStr) (hx : k ≠ x)
    (h : substituirValor c k v = some c1) : buscarNaCadeia c1 x = buscarNaCadeia c x := by
  induction c generalizing c1 with
  | nil => simp [substituirValor] at h
  | cons n resto ih =>
    simp only [substituirValor] at h
    split_ifs at h with h0
    · simp only [Option.some.injEq] at h
      subst h
      have hk : n.chave = k := (strcmp_eq_zero_iff _ _).1 h0
      have hne : ¬ strcmp n.chave x = 0 := by
        rw [strcmp_eq_zero_iff, hk]
        exact hx
      simp [buscarNaCadeia, hne]
    · cases hr : substituirValor resto k v with
      | none => simp [hr] at h
      | some r =>
        simp only [hr, Option.map_some', Option.some.injEq] at h
        subst h
        simp only [buscarNaCadeia, ih r hr]

theorem hash_table_inserirNaHash (g : Globais) (k v : CStr) :
    (inserirNaHash g (some k) (some v)).hash_table =
      Function.update g.hash_table (bucket k)
        ((substituirValor (g.hash_table (bucket k)) k v).getD
          (⟨k, v⟩ :: g.hash_table (bucket k))) := by
  simp only [inserirNaHash]
  cases hs : substituirValor (g.hash_table (bucket k)) k v with
  | some c => simp
  | none =>
    simp only [Option.getD_none]
    split_ifs <;> rfl

theorem encontrar_inserir_mesma (g : Globais) (k v : CStr) :
    encontrarSuspeito (inserirNaHash g (some k) (some v)) (some k) = some v := by
  simp only [encontrarSuspeito, hash_table_inserirNaHash, Function.update_same]
  cases hs : substituirValor (g.hash_table (bucket k)) k v with
  | some c => simpa using buscar_substituir_mesma _ c k v hs
  | none => simp [buscarNaCadeia, strcmp_self]

theorem encontrar_inserir_outra (g : Globais) (chave valor : Option CStr) (x : CStr)
    (hx : chave ≠ some x) :
    encontrarSuspeito (inserirNaHash g chave valor) (some x) = encontrarSuspeito g (some x) := by
  cases chave with
  | none => simp [inserirNaHash]
  | some k =>
    cases valor with
    | none => simp [inserirNaHash]
    | some v =>
      have hkx : k ≠ x := fun h => hx (by rw [h])
      simp only [encontrarSuspeito, hash_table_inserirNaHash]
      by_cases hb : bucket x = bucket k
      · rw [hb, Function.update_same]
        cases hs : substituirValor (g.hash_table (bucket k)) k v with
        | some c => simpa using buscar_substituir_outra _ c k v x hkx hs
        | none =>
          have hne : ¬ strcmp k x = 0 := by
            rw [strcmp_eq_zero_iff]
            exact hkx
          simp [buscarNaCadeia, hne]
      · rw [Function.update_noteq hb]

theorem encontrar_inserirPares_outras (pares : List (Option CStr × Option CStr)) (g : Globais)
    (x : CStr) (hx : ∀ p ∈ pares, p.1 ≠ some x) :
    encontrarSuspeito (inserirPares g pares) (some x) = encontrarSuspeito g (some x) := by
  induction pares generalizing g with
  | nil => rfl
  | cons p resto ih =>
    have step : inserirPares g (p :: resto) = inserirPares (inserirNaHash g p.1 p.2) resto := rfl
    rw [step, ih _ (fun q hq => hx q (List.mem_cons_of_mem _ hq))]
    exact encontrar_inserir_outra g p.1 p.2 x (hx p (List.mem_cons_self _ _))

/-! ## Facts about the roster and the verdict -/

theorem strcasecmp_eq_zero_iff (a b : CStr) : strcasecmp a b = 0 ↔ semCaixa a = semCaixa b := by
  unfold strcasecmp semCaixa
  exact strcmp_eq_zero_iff _ _

theorem length_incrementarContagem (l : List SuspeitoCount) (sus : CStr) :
    (incrementarContagem l sus).length = l.length := by
  induction l with
  | nil => rfl
  | cons s resto ih =>
    simp only [incrementarContagem]
    split_ifs
    · rfl
    · simp [ih]

theorem suspeitos_inserirNaHash (g : Globais) (chave valor : Option CStr) :
    (inserirNaHash g chave valor).suspeitos = g.suspeitos ∨
      (g.suspeitos.length < MAX_SUSPECTS ∧
        ∃ v, valor = some v ∧ (inserirNaHash g chave valor).suspeitos = g.suspeitos ++ [⟨v, 0⟩]) := by
  cases chave with
  | none => left; simp [inserirNaHash]
  | some k =>
    cases valor with
    | none => left; simp [inserirNaHash]
    | some v =>
      simp only [inserirNaHash]
      cases substituirValor (g.hash_table (bucket k)) k v with
      | some c => left; rfl
      | none =>
        simp only
        split_ifs with h1 h2
        · left; rfl
        · right; exact ⟨h2, v, rfl, rfl⟩
        · left; rfl

theorem suspeitos_inserir_chave_nova (g : Globais) (k v : CStr)
    (hk : encontrarSuspeito g (some k) = none) (hv : suspeitoRegistrado g.suspeitos v = false)
    (hlen : g.suspeitos.length < MAX_SUSPECTS) :
    (inserirNaHash g (some k) (some v)).suspeitos = g.suspeitos ++ [⟨v, 0⟩] := by
  have hs : substituirValor (g.hash_table (bucket k)) k v = none :=
    (substituirValor_none_iff _ k v).2 hk
  simp [inserirNaHash, hs, hv, hlen]

theorem suspeitos_inserir_lotado (g : Globais) (k v : CStr)
    (hfull : g.suspeitos.length = MAX_SUSPECTS) :
    (inserirNaHash g (some k) (some v)).suspeitos = g.suspeitos := by
  rcases suspeitos_inserirNaHash g (some k) (some v) with h | ⟨h, _⟩
  · exact h
  · omega

theorem length_suspeitos_entrarSala (s : Sessao) :
    (entrarSala s).g.suspeitos.length = s.g.suspeitos.length := by
  unfold entrarSala
  cases s.pos.pista with
  | none => rfl
  | some pista =>
    simp only
    cases encontrarSuspeito s.g (some pista) with
    | none => rfl
    | some sus => exact length_incrementarContagem _ _

theorem alcancavel_length_le (g : Globais) (h : Alcancavel g) :
    g.suspeitos.length ≤ MAX_SUSPECTS := by
  induction h with
  | inicial => simp [Globais.inicial]
  | inserir g chave valor _ ih =>
    rcases suspeitos_inserirNaHash g chave valor with h | ⟨hlt, v, _, h⟩
    · rw [h]; exact ih
    · rw [h]
      simp only [List.length_append, List.length_singleton]
      omega
  | entrar s _ ih =>
    rw [length_suspeitos_entrarSala]
    exact ih

theorem primeiro_igual_existe (l : List SuspeitoCount) (nome : CStr)
    (h : ∃ s ∈ l, semCaixa s.nome = semCaixa nome) :
    ∃ (antes : List SuspeitoCount) (s : SuspeitoCount) (depois : List SuspeitoCount),
      l = antes ++ s :: depois ∧ (∀ a ∈ antes, semCaixa a.nome ≠ semCaixa nome) ∧
        semCaixa s.nome = semCaixa nome := by
  induction l with
  | nil =>
    obtain ⟨s, hs, _⟩ := h
    exact absurd hs (List.not_mem_nil s)
  | cons a resto ih =>
    by_cases ha : semCaixa a.nome = semCaixa nome
    · exact ⟨[], a, resto, rfl, fun b hb => absurd hb (List.not_mem_nil b), ha⟩
    · obtain ⟨s, hs, hsn⟩ := h
      have hresto : ∃ s ∈ resto, semCaixa s.nome = semCaixa nome := by
        rcases List.mem_cons.1 hs with rfl | hs
        · exact absurd hsn ha
        · exact ⟨s, hs, hsn⟩
      obtain ⟨antes, t, depois, hl, hantes, ht⟩ := ih hresto
      refine ⟨a :: antes, t, depois, by rw [hl]; rfl, ?_, ht⟩
      intro b hb
      rcases List.mem_cons.1 hb with rfl | hb
      · exact ha
      · exact hantes b hb

theorem hash_table_entrarSala (s : Sessao) : (entrarSala s).g.hash_table = s.g.hash_table := by
  unfold entrarSala
  cases s.pos.pista with
  | none => rfl
  | some pista =>
    simp only
    cases encontrarSuspeito s.g (some pista) with
    | none => rfl
    | some sus => rfl

theorem alcancavel_inserirPares (pares : List (Option CStr × Option CStr)) (g : Globais)
    (h : Alcancavel g) : Alcancavel (inserirPares g pares) := by
  induction pares generalizing g with
  | nil => exact h
  | cons p resto ih => exact ih _ (Alcancavel.inserir g p.1 p.2 h)

theorem verificarLoop_sem_igual (l : List SuspeitoCount) (nome : CStr)
    (h : ∀ s ∈ l, semCaixa s.nome ≠ semCaixa nome) : verificarLoop l nome = 0 := by
  induction l with
  | nil => rfl
  | cons s resto ih =>
    have hs : ¬ strcasecmp s.nome nome = 0 := by
      rw [strcasecmp_eq_zero_iff]
      exact h s (List.mem_cons_self _ _)
    simp only [verificarLoop, hs, if_false]
    exact ih (fun a ha => h a (List.mem_cons_of_mem _ ha))

theorem verificarLoop_primeiro_igual (antes depois : List SuspeitoCount) (s : SuspeitoCount)
    (nome : CStr) (hantes : ∀ a ∈ antes, semCaixa a.nome ≠ semCaixa nome)
    (hs : semCaixa s.nome = semCaixa nome) :
    verificarLoop (antes ++ s :: depois) nome = if s.contagem ≥ 2 then 1 else 0 := by
  induction antes with
  | nil =>
    have h0 : strcasecmp s.nome nome = 0 := (strcasecmp_eq_zero_iff _ _).2 hs
    simp [verificarLoop, h0]
  | cons a resto ih =>
    have ha : ¬ strcasecmp a.nome nome = 0 := by
      rw [strcasecmp_eq_zero_iff]
      exact hantes a (List.mem_cons_self _ _)
    simp only [List.cons_append, verificarLoop, ha, if_false]
    exact ih (fun b hb => hantes b (List.mem_cons_of_mem _ hb))

/-! ## Facts about the exploration loop -/

theorem explorarLoop_prompt_seguinte (s : Sessao) (entrada : CStr) (resto : List CStr)
    (pos : Sala) (h : executarComando (noPrompt s).pos entrada = some pos) :
    explorarLoop s (entrada :: resto) =
        explorarLoop ⟨pos, (noPrompt s).raizPistas, (noPrompt s).g⟩ resto ∧
      proximoPrompt (noPrompt s) entrada =
        some (noPrompt ⟨pos, (noPrompt s).raizPistas, (noPrompt s).g⟩) := by
  unfold noPrompt at h
  constructor
  · simp only [explorarLoop, h, noPrompt]
  · simp only [proximoPrompt, noPrompt, h, Option.map_some']

theorem pos_entrarSala (s : Sessao) : (entrarSala s).pos = s.pos := by
  unfold entrarSala
  cases s.pos.pista with
  | none => rfl
  | some pista =>
    simp only
    cases encontrarSuspeito s.g (some pista) with
    | none => rfl
    | some sus => rfl

theorem raizPistas_entrarSala (s : Sessao) :
    (entrarSala s).raizPistas = inserirPista s.raizPistas s.pos.pista := by
  unfold entrarSala
  cases s.pos.pista with
  | none => cases s.raizPistas <;> rfl
  | some pista =>
    simp only
    cases encontrarSuspeito s.g (some pista) with
    | none => rfl
    | some sus => rfl

theorem explorarLoop_cons_iterar (s : Sessao) (entrada : CStr) (resto : List CStr)
    (h : executarComando (entrarSala s).pos entrada ≠ none) :
    explorarLoop s (entrada :: resto) = explorarLoop (iterar s entrada) resto := by
  cases hc : executarComando (entrarSala s).pos entrada with
  | none => exact absurd hc h
  | some pos => simp only [explorarLoop, iterar, hc]

theorem explorarLoop_cons_sair (s : Sessao) (entrada : CStr) (resto : List CStr)
    (h : executarComando (entrarSala s).pos entrada = none) :
    explorarLoop s (entrada :: resto) = entrarSala s := by
  simp only [explorarLoop, h]

theorem executarComando_esquerda (pos : Sala) (entrada : CStr)
    (h : entrada.headD 0 = ch 'e' ∨ entrada.headD 0 = ch 'E') :
    executarComando pos entrada = some (if pos.esq ≠ Sala.null then pos.esq else pos) := by
  unfold executarComando
  rcases h with h | h <;> rw [h] <;> simp only [] <;> split_ifs <;> first | rfl | simp_all [ch]

theorem executarComando_direita (pos : Sala) (entrada : CStr)
    (h : entrada.headD 0 = ch 'd' ∨ entrada.headD 0 = ch 'D') :
    executarComando pos entrada = some (if pos.dir ≠ Sala.null then pos.dir else pos) := by
  unfold executarComando
  rcases h with h | h <;> rw [h] <;> simp only [] <;> split_ifs <;> first | rfl | simp_all [ch]

theorem executarComando_eq_none_iff (pos : Sala) (entrada : CStr) :
    executarComando pos entrada = none ↔ ehSair entrada = true := by
  unfold executarComando ehSair
  simp only []
  split_ifs with h1 h2 h3 h4 h5 h6 <;> simp_all [ch]

theorem incrementar_primeiro (antes depois : List SuspeitoCount) (e : SuspeitoCount) (sus : CStr)
    (hantes : ∀ a ∈ antes, a.nome ≠ sus) (he : e.nome = sus) :
    incrementarContagem (antes ++ e :: depois) sus =
      antes ++ ⟨e.nome, e.contagem + 1⟩ :: depois := by
  induction antes with
  | nil =>
    have h0 : strcmp e.nome sus = 0 := (strcmp_eq_zero_iff _ _).2 he
    simp [incrementarContagem, h0]
  | cons a resto ih =>
    have ha : ¬ strcmp a.nome sus = 0 := by
      rw [strcmp_eq_zero_iff]
      exact hantes a (List.mem_cons_self _ _)
    have hcons : (a :: resto) ++ e :: depois = a :: (resto ++ e :: depois) := rfl
    rw [hcons]
    simp only [incrementarContagem, ha, if_false]
    rw [ih (fun b hb => hantes b (List.mem_cons_of_mem _ hb))]
    rfl

theorem incrementar_ausente (l : List SuspeitoCount) (sus : CStr)
    (h : ∀ a ∈ l, a.nome ≠ sus) : incrementarContagem l sus = l := by
  induction l with
  | nil => rfl
  | cons a resto ih =>
    have ha : ¬ strcmp a.nome sus = 0 := by
      rw [strcmp_eq_zero_iff]
      exact h a (List.mem_cons_self _ _)
    simp only [incrementarContagem, ha, if_false]
    rw [ih (fun b hb => h b (List.mem_cons_of_mem _ hb))]

theorem map_nome_incrementar (l : List SuspeitoCount) (sus : CStr) :
    (incrementarContagem l sus).map SuspeitoCount.nome = l.map SuspeitoCount.nome := by
  induction l with
  | nil => rfl
  | cons a resto ih =>
    simp only [incrementarContagem]
    split_ifs
    · rfl
    · simp only [List.map_cons, ih]

theorem suspeitos_entrarSala (s : Sessao) :
    (entrarSala s).g.suspeitos =
      match s.pos.pista with
      | none => s.g.suspeitos
      | some pista =>
        match encontrarSuspeito s.g (some pista) with
        | none => s.g.suspeitos
        | some sus => incrementarContagem s.g.suspeitos sus := by
  unfold entrarSala
  cases s.pos.pista with
  | none => rfl
  | some pista =>
    simp only
    cases encontrarSuspeito s.g (some pista) with
    | none => rfl
    | some sus => rfl

theorem crescente_entrarSala (s : Sessao) (h : Crescente (exibirPistas s.raizPistas)) :
    Crescente (exibirPistas (entrarSala s).raizPistas) := by
  rw [raizPistas_entrarSala]
  cases hp : s.pos.pista with
  | none => cases hr : s.raizPistas <;> simpa [inserirPista, hr] using h
  | some pista => exact crescente_inserir _ _ h

theorem countP_eq_zero_of_not_mem (l : List CStr) (x : CStr) (hm : x ∉ l) :
    l.countP (fun t => decide (t = x)) = 0 := by
  rw [List.countP_eq_zero]
  intro a ha
  simp only [decide_eq_true_eq]
  rintro rfl
  exact hm ha

theorem countP_eq_one_of_mem (l : List CStr) (x : CStr) (hn : l.Nodup) (hm : x ∈ l) :
    l.countP (fun t => decide (t = x)) = 1 := by
  induction l with
  | nil => exact absurd hm (List.not_mem_nil x)
  | cons a resto ih =>
    rw [List.nodup_cons] at hn
    by_cases ha : a = x
    · subst ha
      rw [List.countP_cons_of_pos _ _ (by simp), countP_eq_zero_of_not_mem resto a hn.1]
    · have hx : x ∈ resto := by
        rcases List.mem_cons.1 hm with h | h
        · exact absurd h.symm ha
        · exact h
      rw [List.countP_cons_of_neg _ _ (by simpa using ha), ih hn.2 hx]

theorem inserirPista_null (raiz : PistaNode) : inserirPista raiz none = raiz := by
  cases raiz <;> rfl

theorem inserirPista_idem (raiz : PistaNode) (x : CStr) :
    inserirPista (inserirPista raiz (some x)) (some x) = inserirPista raiz (some x) := by
  by_cases hx : x = []
  · subst hx
    rw [inserirPista_vazio, inserirPista_vazio]
  have hlen : ¬ strlen x = 0 := by
    simpa [strlen] using hx
  induction raiz with
  | null => simp [inserirPista, hlen, strcmp_self]
  | node t esq dir ihe ihd =>
    simp only [inserirPista, hlen, if_false]
    split_ifs with h0 h1
    · simp only [inserirPista, hlen, if_false, h0, if_true]
    · simp only [inserirPista, hlen, if_false, h0, h1, if_true, ihe]
    · simp only [inserirPista, hlen, if_false, h0, h1, ihd]

theorem inserirPista_presente (raiz : PistaNode) (x : CStr)
    (h : Crescente (exibirPistas raiz)) (hx : x ∈ exibirPistas raiz) :
    inserirPista raiz (some x) = raiz := by
  by_cases hvazio : x = []
  · subst hvazio
    exact inserirPista_vazio raiz
  have hlen : ¬ strlen x = 0 := by
    simpa [strlen] using hvazio
  induction raiz with
  | null => simp [exibirPistas] at hx
  | node t esq dir ihe ihd =>
    simp only [exibirPistas, Crescente, List.pairwise_append, List.pairwise_cons,
      List.mem_cons] at h
    obtain ⟨he, ⟨htd, hd⟩, hed⟩ := h
    simp only [exibirPistas, List.mem_append, List.mem_cons] at hx
    simp only [inserirPista, hlen, if_false]
    split_ifs with h0 h1
    · rfl
    · have hxe : x ∈ exibirPistas esq := by
        rcases hx with hx | rfl | hx
        · exact hx
        · exact absurd (strcmp_self x) h0
        · have h2 := (strcmp_neg_iff_pos t x).1 (htd x hx)
          omega
      rw [ihe he hxe]
    · have hxd : x ∈ exibirPistas dir := by
        rcases hx with hx | rfl | hx
        · have h2 := hed x hx t (Or.inl rfl)
          omega
        · exact absurd (strcmp_self x) h0
        · exact hx
      rw [ihd hd hxd]

theorem hash_func_lt (k : CStr) : hash_func k < HASH_SIZE := (bucket k).isLt

theorem buscarNaCadeia_none_iff (c : List HashNode) (k : CStr) :
    buscarNaCadeia c k = none ↔ k ∉ c.map HashNode.chave := by
  induction c with
  | nil => simp [buscarNaCadeia]
  | cons n resto ih =>
    simp only [buscarNaCadeia, List.map_cons, List.mem_cons, not_or]
    split_ifs with h
    · have hk : n.chave = k := (strcmp_eq_zero_iff _ _).1 h
      simp [hk]
    · have hk : ¬ n.chave = k := fun e => h ((strcmp_eq_zero_iff _ _).2 e)
      rw [ih]
      exact ⟨fun h2 => ⟨fun e => hk e.symm, h2⟩, fun h2 => h2.2⟩

theorem map_chave_substituirValor (c c1 : List HashNode) (k v : CStr)
    (h : substituirValor c k v = some c1) :
    c1.map HashNode.chave = c.map HashNode.chave := by
  induction c generalizing c1 with
  | nil => simp [substituirValor] at h
  | cons n resto ih =>
    simp only [substituirValor] at h
    split_ifs at h with h0
    · simp only [Option.some.injEq] at h
      subst h
      rfl
    · cases hr : substituirValor resto k v with
      | none => simp [hr] at h
      | some r =>
        simp only [hr, Option.map_some', Option.some.injEq] at h
        subst h
        simp only [List.map_cons, ih r hr]

theorem bemFormada_inserirNaHash (g : Globais) (chave valor : Option CStr)
    (h : TabelaBemFormada g) : TabelaBemFormada (inserirNaHash g chave valor) := by
  cases chave with
  | none => simpa [inserirNaHash] using h
  | some k =>
    cases valor with
    | none => simpa [inserirNaHash] using h
    | some v =>
      obtain ⟨hnodup, hbucket⟩ := h
      have hkeys : ∀ n ∈ g.hash_table (bucket k), n.chave ∈ (g.hash_table (bucket k)).map
          HashNode.chave := fun n hn => List.mem_map_of_mem _ hn
      unfold TabelaBemFormada
      rw [hash_table_inserirNaHash]
      constructor
      · intro i
        by_cases hi : i = bucket k
        · subst hi
          rw [Function.update_same]
          cases hs : substituirValor (g.hash_table (bucket k)) k v with
          | some c =>
            simp only [Option.getD_some]
            rw [map_chave_substituirValor _ c k v hs]
            exact hnodup _
          | none =>
            simp only [Option.getD_none, List.map_cons, List.nodup_cons]
            exact ⟨(buscarNaCadeia_none_iff _ k).1 ((substituirValor_none_iff _ k v).1 hs),
              hnodup _⟩
        · rw [Function.update_noteq hi]
          exact hnodup i
      · intro i n hn
        by_cases hi : i = bucket k
        · subst hi
          rw [Function.update_same] at hn
          cases hs : substituirValor (g.hash_table (bucket k)) k v with
          | some c =>
            simp only [hs, Option.getD_some] at hn
            have hmem : n.chave ∈ c.map HashNode.chave := List.mem_map_of_mem _ hn
            rw [map_chave_substituirValor _ c k v hs] at hmem
            obtain ⟨m, hm, hmk⟩ := List.mem_map.1 hmem
            rw [← hmk]
            exact hbucket _ m hm
          | none =>
            simp only [hs, Option.getD_none, List.mem_cons] at hn
            rcases hn with rfl | hn
            · rfl
            · exact hbucket _ n hn
        · rw [Function.update_noteq hi] at hn
          exact hbucket i n hn

theorem bemFormada_alcancavel (g : Globais) (h : Alcancavel g) : TabelaBemFormada g := by
  induction h with
  | inicial =>
    constructor
    · intro i
      exact List.nodup_nil
    · intro i n hn
      exact absurd hn (List.not_mem_nil n)
  | inserir g chave valor _ ih => exact bemFormada_inserirNaHash g chave valor ih
  | entrar s _ ih =>
    unfold TabelaBemFormada
    rw [hash_table_entrarSala]
    exact ih

theorem nodup_chavesDaTabela (g : Globais) (h : TabelaBemFormada g) :
    (chavesDaTabela g).Nodup := by
  obtain ⟨hnodup, hbucket⟩ := h
  unfold chavesDaTabela
  rw [List.nodup_flatMap]
  refine ⟨fun i _ => hnodup i, ?_⟩
  refine List.Nodup.pairwise_of_forall_ne (List.nodup_finRange _) ?_
  intro i _ j _ hij
  rw [Function.onFun, List.disjoint_left]
  intro x hxi hxj
  obtain ⟨m, hm, hmk⟩ := List.mem_map.1 hxi
  obtain ⟨n, hn, hnk⟩ := List.mem_map.1 hxj
  have h1 := hbucket i m hm
  have h2 := hbucket j n hn
  rw [hmk] at h1
  rw [hnk] at h2
  exact hij (Fin.ext (h1.symm.trans h2))

/-! ## Facts about reading standard input -/

theorem lerLinha_append (k : Nat) (stdin : List Nat) :
    (lerLinha k stdin).1 ++ (lerLinha k stdin).2 = stdin := by
  induction k generalizing stdin with
  | zero => rfl
  | succ k ih =>
    cases stdin with
    | nil => rfl
    | cons c resto =>
      simp only [lerLinha]
      split_ifs with h
      · rfl
      · simp only [List.cons_append, ih resto]

theorem lerLinha_resto_le (k : Nat) (c : Nat) (stdin : List Nat) :
    (lerLinha (k + 1) (c :: stdin)).2.length ≤ stdin.length := by
  simp only [lerLinha]
  split_ifs with h
  · exact le_refl _
  · have h1 := congrArg List.length (lerLinha_append k stdin)
    simp only [List.length_append] at h1
    show (lerLinha k stdin).2.length ≤ stdin.length
    omega

theorem lerLinha_linha (linha resto : List Nat) (k : Nat) (hk : linha.length < k)
    (hnl : ch '\n' ∉ linha) :
    lerLinha k (linha ++ ch '\n' :: resto) = (linha ++ [ch '\n'], resto) := by
  induction linha generalizing k with
  | nil =>
    cases k with
    | zero => exact absurd hk (Nat.lt_irrefl 0)
    | succ k => simp [lerLinha]
  | cons c l ih =>
    cases k with
    | zero => exact absurd hk (Nat.not_lt_zero _)
    | succ k =>
      have hc : ¬ c = ch '\n' := fun e => hnl (by rw [e]; exact List.mem_cons_self _ _)
      have hl : ch '\n' ∉ l := fun e => hnl (List.mem_cons_of_mem _ e)
      have hk1 : l.length < k := by
        simp only [List.length_cons] at hk
        omega
      have e : (c :: l) ++ ch '\n' :: resto = c :: (l ++ ch '\n' :: resto) := rfl
      rw [e]
      simp only [lerLinha, hc, if_false, ih k hk1 hl]
      rfl

theorem fgets_linha (linha resto : List Nat) (h : LinhaCurta linha) :
    fgets MAX_INPUT (linha ++ ch '\n' :: resto) = some (bufferDaLinha linha, resto) := by
  obtain ⟨hlen, hnl⟩ := h
  have hk : linha.length < MAX_INPUT - 1 := by
    have : MAX_INPUT - 2 < MAX_INPUT - 1 := by decide
    omega
  have h1 := lerLinha_linha linha resto (MAX_INPUT - 1) hk hnl
  cases linha with
  | nil => simpa [fgets, bufferDaLinha] using h1
  | cons c l => simpa [fgets, bufferDaLinha] using h1

theorem lerBuffers_fuel (fuel1 fuel2 : Nat) (stdin : List Nat) (h1 : stdin.length ≤ fuel1)
    (h2 : stdin.length ≤ fuel2) : lerBuffers fuel1 stdin = lerBuffers fuel2 stdin := by
  induction fuel1 generalizing fuel2 stdin with
  | zero =>
    have hnil : stdin = [] := List.length_eq_zero.1 (Nat.le_zero.1 h1)
    subst hnil
    cases fuel2 <;> rfl
  | succ f1 ih =>
    cases stdin with
    | nil => cases fuel2 <;> rfl
    | cons c resto =>
      cases fuel2 with
      | zero => exact absurd h2 (by simp)
      | succ f2 =>
        have hr := lerLinha_resto_le (MAX_INPUT - 2) c resto
        simp only [List.length_cons] at h1 h2
        have e : lerBuffers (f1 + 1) (c :: resto) =
            (lerLinha (MAX_INPUT - 2 + 1) (c :: resto)).1 ::
              lerBuffers f1 (lerLinha (MAX_INPUT - 2 + 1) (c :: resto)).2 := rfl
        have e2 : lerBuffers (f2 + 1) (c :: resto) =
            (lerLinha (MAX_INPUT - 2 + 1) (c :: resto)).1 ::
              lerBuffers f2 (lerLinha (MAX_INPUT - 2 + 1) (c :: resto)).2 := rfl
        rw [e, e2, ih f2 _ (by omega) (by omega)]

theorem buffersLidos_flatten (stdin : List Nat) : (buffersLidos stdin).flatten = stdin := by
  unfold buffersLidos
  generalize hf : stdin.length = fuel
  have hle : stdin.length ≤ fuel := by omega
  clear hf
  induction fuel generalizing stdin with
  | zero =>
    have hnil : stdin = [] := List.length_eq_zero.1 (Nat.le_zero.1 hle)
    subst hnil
    rfl
  | succ f ih =>
    cases stdin with
    | nil => rfl
    | cons c resto =>
      have hr := lerLinha_resto_le (MAX_INPUT - 2) c resto
      simp only [List.length_cons] at hle
      have e : lerBuffers (f + 1) (c :: resto) =
          (lerLinha (MAX_INPUT - 2 + 1) (c :: resto)).1 ::
            lerBuffers f (lerLinha (MAX_INPUT - 2 + 1) (c :: resto)).2 := rfl
      rw [e, List.flatten_cons, ih _ (by omega)]
      exact lerLinha_append _ _

theorem buffersLidos_linha (linha resto : List Nat) (h : LinhaCurta linha) :
    buffersLidos (linha ++ ch '\n' :: resto) = bufferDaLinha linha :: buffersLidos resto := by
  unfold buffersLidos
  have hlen : (linha ++ ch '\n' :: resto).length = (linha.length + resto.length) + 1 := by
    simp only [List.length_append, List.length_cons]
    omega
  rw [hlen]
  simp only [lerBuffers, fgets_linha linha resto h]
  rw [lerBuffers_fuel (linha.length + resto.length) resto.length resto (by omega) (le_refl _)]

theorem buffersLidos_juntarLinhas (linhas : List CStr) (h : ∀ l ∈ linhas, LinhaCurta l) :
    buffersLidos (juntarLinhas linhas) = linhas.map bufferDaLinha := by
  induction linhas with
  | nil => rfl
  | cons l resto ih =>
    simp only [juntarLinhas, List.map_cons]
    rw [buffersLidos_linha l _ (h l (List.mem_cons_self _ _)),
      ih (fun x hx => h x (List.mem_cons_of_mem _ hx))]

/-! ## Facts about the course of the exploration loop -/

theorem explorarLoopRastro_fst (s : Sessao) (stdin : List CStr) :
    (explorarLoopRastro s stdin).1 = explorarLoop s stdin := by
  induction stdin generalizing s with
  | nil => rfl
  | cons entrada resto ih =>
    simp only [explorarLoopRastro, explorarLoop]
    cases executarComando (entrarSala s).pos entrada with
    | none => rfl
    | some pos => exact ih _

theorem explorarLoopRastro_cons_sair (s : Sessao) (entrada : CStr) (resto : List CStr)
    (h : ehSair entrada = true) :
    explorarLoopRastro s (entrada :: resto) = (entrarSala s, [s.pos], resto) := by
  have hc := (executarComando_eq_none_iff (entrarSala s).pos entrada).2 h
  simp only [explorarLoopRastro, hc]

theorem explorarLoopRastro_cons_iterar (s : Sessao) (entrada : CStr) (resto : List CStr)
    (h : ehSair entrada = false) :
    explorarLoopRastro s (entrada :: resto) =
      ((explorarLoopRastro (iterar s entrada) resto).1,
        s.pos :: (explorarLoopRastro (iterar s entrada) resto).2.1,
        (explorarLoopRastro (iterar s entrada) resto).2.2) := by
  cases hc : executarComando (entrarSala s).pos entrada with
  | none =>
    have := (executarComando_eq_none_iff (entrarSala s).pos entrada).1 hc
    rw [h] at this
    exact absurd this (by decide)
  | some pos => simp only [explorarLoopRastro, iterar, hc]

theorem explorarLoopRastro_curso (s : Sessao) (stdin : List CStr) :
    (explorarLoopRastro s stdin).1 =
        entrarSala ((stdin.takeWhile (fun b => !ehSair b)).foldl iterar s) ∧
      (explorarLoopRastro s stdin).2.1.length =
        (stdin.takeWhile (fun b => !ehSair b)).length + 1 ∧
      (explorarLoopRastro s stdin).2.2 = (stdin.dropWhile (fun b => !ehSair b)).tail := by
  induction stdin generalizing s with
  | nil => exact ⟨rfl, rfl, rfl⟩
  | cons entrada resto ih =>
    cases h : ehSair entrada with
    | true =>
      rw [explorarLoopRastro_cons_sair s entrada resto h]
      simp [List.takeWhile, List.dropWhile, h]
    | false =>
      rw [explorarLoopRastro_cons_iterar s entrada resto h]
      obtain ⟨h1, h2, h3⟩ := ih (iterar s entrada)
      simp only [List.takeWhile, List.dropWhile, h, Bool.not_false, List.foldl_cons,
        List.length_cons]
      exact ⟨h1, by rw [h2], h3⟩

theorem executarComando_congr (pos : Sala) (e1 e2 : CStr)
    (h : tolower (e1.headD 0) = tolower (e2.headD 0)) :
    executarComando pos e1 = executarComando pos e2 := by
  have hn : ch '\n' = 10 := rfl
  have hs : ch 's' = 115 := rfl
  have hS : ch 'S' = 83 := rfl
  have he : ch 'e' = 101 := rfl
  have hE : ch 'E' = 69 := rfl
  have hd : ch 'd' = 100 := rfl
  have hD : ch 'D' = 68 := rfl
  unfold executarComando
  unfold tolower at h
  simp only [hn, hs, hS, he, hE, hd, hD]
  generalize e1.headD 0 = c1 at h ⊢
  generalize e2.headD 0 = c2 at h ⊢
  split_ifs at h ⊢ <;> first | rfl | omega

/-! ## Facts about the cursor -/

theorem salaDe_trans (a b c : Sala) (hab : SalaDe a b) (hbc : SalaDe b c) : SalaDe a c := by
  induction hbc with
  | aqui => exact hab
  | esq n p e d _ ih => exact SalaDe.esq a n p e d ih
  | dir n p e d _ ih => exact SalaDe.dir a n p e d ih

theorem salaDe_of_filho (b a : Sala) (h : Filho b a) : SalaDe b a := by
  obtain ⟨hb, h⟩ := h
  cases a with
  | null =>
    rcases h with h | h <;> exact absurd h hb
  | node n p e d =>
    rcases h with h | h
    · rw [h]
      exact SalaDe.esq _ n p e d (SalaDe.aqui _)
    · rw [h]
      exact SalaDe.dir _ n p e d (SalaDe.aqui _)

theorem niveis_filho_lt (b a : Sala) (h : Filho b a) : b.niveis < a.niveis := by
  obtain ⟨hb, h⟩ := h
  cases a with
  | null =>
    rcases h with h | h <;> exact absurd h hb
  | node n p e d =>
    rcases h with h | h
    · rw [h]
      simp only [Sala.esq, Sala.niveis]
      omega
    · rw [h]
      simp only [Sala.dir, Sala.niveis]
      omega

theorem niveis_pos (a : Sala) (h : a ≠ Sala.null) : 0 < a.niveis := by
  cases a with
  | null => exact absurd rfl h
  | node n p e d =>
    simp only [Sala.niveis]
    omega

theorem executarComando_passo (pos p : Sala) (entrada : CStr)
    (h : executarComando pos entrada = some p) : p = pos ∨ Filho p pos := by
  unfold executarComando at h
  simp only [] at h
  split_ifs at h with h1 h2 h3 h4 h5 h6 <;> simp only [Option.some.injEq] at h
  · exact Or.inl h.symm
  · exact Or.inr ⟨h ▸ h4, Or.inl h.symm⟩
  · exact Or.inl h.symm
  · exact Or.inr ⟨h ▸ h6, Or.inr h.symm⟩
  · exact Or.inl h.symm
  · exact Or.inl h.symm

theorem rastro_nao_vazio (s : Sessao) (stdin : List CStr) :
    ∃ resto, (explorarLoopRastro s stdin).2.1 = s.pos :: resto := by
  cases stdin with
  | nil => exact ⟨[], rfl⟩
  | cons entrada resto =>
    simp only [explorarLoopRastro]
    cases executarComando (entrarSala s).pos entrada with
    | none => exact ⟨[], rfl⟩
    | some p => exact ⟨_, rfl⟩

theorem rastro_invariante (s : Sessao) (stdin : List CStr) (hpos : s.pos ≠ Sala.null) :
    (∀ r ∈ (explorarLoopRastro s stdin).2.1, SalaDe r s.pos ∧ r ≠ Sala.null) ∧
      (explorarLoopRastro s stdin).2.1.Chain' (fun a b => b = a ∨ Filho b a) ∧
      (explorarLoopRastro s stdin).2.1.Pairwise (fun a b => SalaDe b a) ∧
      contarMovimentos (explorarLoopRastro s stdin).2.1 + 1 ≤ s.pos.niveis ∧
      (explorarLoopRastro s stdin).2.1.getLast? = some (explorarLoopRastro s stdin).1.pos := by
  have hbase : (∀ r ∈ [s.pos], SalaDe r s.pos ∧ r ≠ Sala.null) ∧
      [s.pos].Chain' (fun a b => b = a ∨ Filho b a) ∧
      [s.pos].Pairwise (fun a b => SalaDe b a) ∧
      contarMovimentos [s.pos] + 1 ≤ s.pos.niveis ∧
      [s.pos].getLast? = some (entrarSala s).pos := by
    refine ⟨?_, List.chain'_singleton _, List.pairwise_singleton _ _, ?_, ?_⟩
    · intro r hr
      rw [List.mem_singleton] at hr
      subst hr
      exact ⟨SalaDe.aqui _, hpos⟩
    · have := niveis_pos s.pos hpos
      simp only [contarMovimentos]
      omega
    · rw [pos_entrarSala]
      rfl
  induction stdin generalizing s with
  | nil => exact hbase
  | cons entrada resto ih =>
    cases hc : executarComando (entrarSala s).pos entrada with
    | none =>
      simp only [explorarLoopRastro, hc]
      exact hbase
    | some p =>
      have hstep : p = s.pos ∨ Filho p s.pos := by
        rw [pos_entrarSala] at hc
        exact executarComando_passo s.pos p entrada hc
      have hp : p ≠ Sala.null := by
        rcases hstep with h | h
        · rw [h]; exact hpos
        · exact h.1
      have hsub : SalaDe p s.pos := by
        rcases hstep with h | h
        · rw [h]; exact SalaDe.aqui _
        · exact salaDe_of_filho p s.pos h
      have hniv : p.niveis ≤ s.pos.niveis ∧ (p ≠ s.pos → p.niveis < s.pos.niveis) := by
        rcases hstep with h | h
        · rw [h]; exact ⟨le_refl _, fun hne => absurd rfl hne⟩
        · exact ⟨le_of_lt (niveis_filho_lt p s.pos h), fun _ => niveis_filho_lt p s.pos h⟩
      have hbase2 : (∀ r ∈ [p], SalaDe r p ∧ r ≠ Sala.null) ∧
          [p].Chain' (fun a b => b = a ∨ Filho b a) ∧
          [p].Pairwise (fun a b => SalaDe b a) ∧
          contarMovimentos [p] + 1 ≤ p.niveis ∧
          [p].getLast? = some (entrarSala
            ⟨p, (entrarSala s).raizPistas, (entrarSala s).g⟩).pos := by
        refine ⟨?_, List.chain'_singleton _, List.pairwise_singleton _ _, ?_, ?_⟩
        · intro r hr
          rw [List.mem_singleton] at hr
          subst hr
          exact ⟨SalaDe.aqui _, hp⟩
        · have := niveis_pos p hp
          simp only [contarMovimentos]
          omega
        · rw [pos_entrarSala]
          rfl
      obtain ⟨h1, h2, h3, h4, h5⟩ :=
        ih ⟨p, (entrarSala s).raizPistas, (entrarSala s).g⟩ hp hbase2
      obtain ⟨t, ht⟩ :=
        rastro_nao_vazio ⟨p, (entrarSala s).raizPistas, (entrarSala s).g⟩ resto
      simp only [explorarLoopRastro, hc]
      rw [ht] at h1 h2 h3 h4 h5 ⊢
      refine ⟨?_, ?_, ?_, ?_, ?_⟩
      · intro r hr
        rcases List.mem_cons.1 hr with rfl | hr
        · exact ⟨SalaDe.aqui _, hpos⟩
        · exact ⟨salaDe_trans r p s.pos (h1 r hr).1 hsub, (h1 r hr).2⟩
      · exact List.Chain'.cons hstep h2
      · refine List.Pairwise.cons ?_ h3
        intro r hr
        exact salaDe_trans r p s.pos (h1 r hr).1 hsub
      · have hcm : contarMovimentos (s.pos :: p :: t) =
            (if p ≠ s.pos then 1 else 0) + contarMovimentos (p :: t) := rfl
        rw [hcm]
        have h4p : contarMovimentos (p :: t) + 1 ≤ p.niveis := h4
        by_cases hne : p ≠ s.pos
        · have := hniv.2 hne
          rw [if_pos hne]
          omega
        · rw [if_neg hne]
          have := hniv.1
          omega
      · rw [List.getLast?_cons_cons]
        exact h5

/-! ## Facts about sessions made of successful moves -/

theorem explorarLoop_soMovimentos (s : Sessao) (stdin : List CStr)
    (h : soMovimentos s.pos stdin = true) :
    explorarLoop s stdin = entrarSala ((movimentos stdin).foldl descer s) ∧
      caminhoValido s.pos (movimentos stdin) = true := by
  induction stdin generalizing s with
  | nil => exact ⟨rfl, rfl⟩
  | cons entrada resto ih =>
    simp only [soMovimentos] at h
    simp only [movimentos]
    split_ifs at h ⊢ with h1 h2 h3
    · have hsair : ehSair entrada = true := by simpa [ehSair] using h1
      exact ⟨explorarLoop_cons_sair s entrada resto
        ((executarComando_eq_none_iff _ entrada).2 hsair), rfl⟩
    · simp only [Bool.and_eq_true, decide_eq_true_eq] at h
      have hc : executarComando (entrarSala s).pos entrada = some s.pos.esq := by
        rw [pos_entrarSala, executarComando_esquerda s.pos entrada h2, if_pos h.1]
      have hi : iterar s entrada = descer s Direcao.esquerda := by
        simp only [iterar, hc, descer]
      rw [explorarLoop_cons_iterar s entrada resto (by rw [hc]; exact Option.some_ne_none _), hi]
      obtain ⟨ih1, ih2⟩ := ih (descer s Direcao.esquerda) h.2
      refine ⟨by rw [ih1]; rfl, ?_⟩
      simp only [caminhoValido, Bool.and_eq_true, decide_eq_true_eq]
      exact ⟨h.1, ih2⟩
    · simp only [Bool.and_eq_true, decide_eq_true_eq] at h
      have hc : executarComando (entrarSala s).pos entrada = some s.pos.dir := by
        rw [pos_entrarSala, executarComando_direita s.pos entrada h3, if_pos h.1]
      have hi : iterar s entrada = descer s Direcao.direita := by
        simp only [iterar, hc, descer]
      rw [explorarLoop_cons_iterar s entrada resto (by rw [hc]; exact Option.some_ne_none _), hi]
      obtain ⟨ih1, ih2⟩ := ih (descer s Direcao.direita) h.2
      refine ⟨by rw [ih1]; rfl, ?_⟩
      simp only [caminhoValido, Bool.and_eq_true, decide_eq_true_eq]
      exact ⟨h.1, ih2⟩

theorem caminhoValido_hall (ds : List Direcao) (h : caminhoValido hall ds = true) :
    ds ∈ caminhosDoMapa := by
  rcases ds with _ | ⟨d1, _ | ⟨d2, _ | ⟨d3, r⟩⟩⟩
  · decide
  · cases d1 <;> decide
  · cases d1 <;> cases d2 <;> decide
  · cases d1 <;> cases d2 <;> cases d3 <;>
      simp [caminhoValido, hall, salaEstar, cozinha, criarSala, Sala.esq, Sala.dir] at h

theorem verificarLoop_um (l : List SuspeitoCount) (nome : CStr)
    (h : verificarLoop l nome = 1) :
    ∃ s ∈ l, 2 ≤ s.contagem ∧ semCaixa s.nome = semCaixa nome := by
  induction l with
  | nil =>
    have h0 : (0 : Int) = 1 := h
    exact absurd h0 (by decide)
  | cons a resto ih =>
    simp only [verificarLoop] at h
    split_ifs at h with h1 h2
    · exact ⟨a, List.mem_cons_self _ _, h2, (strcasecmp_eq_zero_iff _ _).1 h1⟩
    · exact absurd h (by decide)
    · obtain ⟨s, hs, hc⟩ := ih h
      exact ⟨s, List.mem_cons_of_mem _ hs, hc⟩

/-! ## Main results -/

/-- C1: for every finite sequence of strings inserted with `inserirPista` into the empty clue
tree, the list that `exibirPistas` prints is strictly ascending under `strcmp` (every earlier
text compares below every later one), hence has no text twice; inserting "B", "A", "B", "C"
gives exactly "A", "B", "C". -/
theorem c1_ledger_strictly_ascending (textos : List CStr) :
    List.Pairwise (fun a b => strcmp a b < 0)
        (exibirPistas (inserirPistas PistaNode.null textos)) ∧
      (exibirPistas (inserirPistas PistaNode.null textos)).Nodup ∧
      exibirPistas (inserirPistas PistaNode.null [cstr "B", cstr "A", cstr "B", cstr "C"]) =
        [cstr "A", cstr "B", cstr "C"] := by
  have hasc : Crescente (exibirPistas (inserirPistas PistaNode.null textos)) :=
    crescente_inserirPistas textos PistaNode.null List.Pairwise.nil
  exact ⟨hasc, crescente_nodup _ hasc, by decide⟩

/-- C2: for every finite sequence of strings inserted with `inserirPista` into the empty clue
tree, the list that `exibirPistas` prints is the sorted list of the distinct non-empty strings of
the sequence; a text is in the ledger if and only if it is non-empty and was inserted; and two
sequences with the same set of non-empty texts give the same list. -/
theorem c2_ledger_is_sorted_distinct_texts (textos : List CStr) :
    exibirPistas (inserirPistas PistaNode.null textos) = distintasOrdenadas textos ∧
      (∀ x, x ∈ exibirPistas (inserirPistas PistaNode.null textos) ↔ x ≠ [] ∧ x ∈ textos) ∧
      (∀ outros : List CStr, (∀ x, x ≠ [] → (x ∈ textos ↔ x ∈ outros)) →
        exibirPistas (inserirPistas PistaNode.null outros) =
          exibirPistas (inserirPistas PistaNode.null textos)) := by
  refine ⟨exibir_eq_distintasOrdenadas textos, ?_, ?_⟩
  · intro x
    rw [mem_exibir_inserirPistas]
    simp [exibirPistas]
  · intro outros h
    refine crescente_ext _ _ (crescente_inserirPistas outros PistaNode.null List.Pairwise.nil)
      (crescente_inserirPistas textos PistaNode.null List.Pairwise.nil) ?_
    intro x
    rw [mem_exibir_inserirPistas, mem_exibir_inserirPistas]
    simp only [exibirPistas, List.not_mem_nil, false_or]
    constructor
    · rintro ⟨h1, h2⟩
      exact ⟨h1, (h x h1).2 h2⟩
    · rintro ⟨h1, h2⟩
      exact ⟨h1, (h x h1).1 h2⟩

/-- Witness of C2: the sequences "B", "A", "", "B", "C" and "C", "A", "B" have the same non-empty
texts, so they give the same ledger. -/
theorem c2_ledger_is_sorted_distinct_texts_witness :
    exibirPistas (inserirPistas PistaNode.null [cstr "C", cstr "A", cstr "B"]) =
      exibirPistas
        (inserirPistas PistaNode.null [cstr "B", cstr "A", [], cstr "B", cstr "C"]) :=
  (c2_ledger_is_sorted_distinct_texts [cstr "B", cstr "A", [], cstr "B", cstr "C"]).2.2
    [cstr "C", cstr "A", cstr "B"] (by
      intro x hx
      simp only [List.mem_cons, List.mem_singleton, List.not_mem_nil, or_false]
      tauto)

/-- C3: for every table state and every non-null key `k` and value `v`, after
`inserirNaHash(k, v)` the lookup `encontrarSuspeito(k)` returns `v`, whether `k` was absent or
present with another value (last write wins); and in a table built from the empty one the lookup
of a key that was never inserted returns `NULL`. -/
theorem c3_lookup_after_insert (g : Globais) (k v : CStr) :
    encontrarSuspeito (inserirNaHash g (some k) (some v)) (some k) = some v ∧
      (∀ w : CStr, encontrarSuspeito g (some k) = some w →
        encontrarSuspeito (inserirNaHash g (some k) (some v)) (some k) = some v) ∧
      (∀ (pares : List (Option CStr × Option CStr)) (x : CStr), (∀ p ∈ pares, p.1 ≠ some x) →
        encontrarSuspeito (inserirPares Globais.inicial pares) (some x) = none) := by
  refine ⟨encontrar_inserir_mesma g k v, fun _ _ => encontrar_inserir_mesma g k v, ?_⟩
  intro pares x hx
  rw [encontrar_inserirPares_outras pares Globais.inicial x hx]
  rfl

/-- Witness of C3: "Marcos" is overwritten by "Ricardo" under the same key, and a key that was
never inserted is not found. -/
theorem c3_lookup_after_insert_witness :
    encontrarSuspeito
        (inserirNaHash (inserirNaHash Globais.inicial (some (cstr "Faca")) (some (cstr "Marcos")))
          (some (cstr "Faca")) (some (cstr "Ricardo")))
        (some (cstr "Faca")) = some (cstr "Ricardo") ∧
      encontrarSuspeito
        (inserirPares Globais.inicial [(some (cstr "Faca"), some (cstr "Marcos"))])
        (some (cstr "Luva")) = none :=
  ⟨(c3_lookup_after_insert
      (inserirNaHash Globais.inicial (some (cstr "Faca")) (some (cstr "Marcos")))
      (cstr "Faca") (cstr "Ricardo")).2.1 (cstr "Marcos") (by decide),
   (c3_lookup_after_insert Globais.inicial (cstr "Faca") (cstr "Marcos")).2.2
      [(some (cstr "Faca"), some (cstr "Marcos"))] (cstr "Luva") (by decide)⟩

/-- C4: for every table state and all keys `x` and `y` with `y` different from `x`,
`inserirNaHash(y, v)` leaves the result of `encontrarSuspeito(x)` unchanged, also when both keys
fall into the same bucket; and so do every sequence of `inserirNaHash` calls none of which has
the key `x` and every room-entry step of the exploration. -/
theorem c4_insert_other_key_frame (g : Globais) (x y v : CStr) (hxy : y ≠ x) :
    encontrarSuspeito (inserirNaHash g (some y) (some v)) (some x) =
        encontrarSuspeito g (some x) ∧
      (bucket y = bucket x →
        encontrarSuspeito (inserirNaHash g (some y) (some v)) (some x) =
          encontrarSuspeito g (some x)) ∧
      (∀ pares : List (Option CStr × Option CStr), (∀ p ∈ pares, p.1 ≠ some x) →
        encontrarSuspeito (inserirPares g pares) (some x) = encontrarSuspeito g (some x)) ∧
      (∀ s : Sessao, encontrarSuspeito (entrarSala s).g (some x) =
        encontrarSuspeito s.g (some x)) := by
  have h1 := encontrar_inserir_outra g (some y) (some v) x (by simpa using hxy)
  refine ⟨h1, fun _ => h1, fun pares hp => encontrar_inserirPares_outras pares g x hp, ?_⟩
  intro s
  simp only [encontrarSuspeito, hash_table_entrarSala]

/-- Witness of C4: "Bilhete" and "Selo" fall into the same bucket, and inserting "Bilhete" leaves
the lookup of "Selo" unchanged. -/
theorem c4_insert_other_key_frame_witness :
    bucket (cstr "Bilhete") = bucket (cstr "Selo") ∧
      encontrarSuspeito
        (inserirNaHash (inserirNaHash Globais.inicial (some (cstr "Selo")) (some (cstr "Marcos")))
          (some (cstr "Bilhete")) (some (cstr "Ricardo")))
        (some (cstr "Selo")) =
      encontrarSuspeito
        (inserirNaHash Globais.inicial (some (cstr "Selo")) (some (cstr "Marcos")))
        (some (cstr "Selo")) :=
  ⟨by decide,
   (c4_insert_other_key_frame
      (inserirNaHash Globais.inicial (some (cstr "Selo")) (some (cstr "Marcos")))
      (cstr "Selo") (cstr "Bilhete") (cstr "Ricardo") (by decide)).2.1 (by decide)⟩

/-- C5, the code at the failing input: after `inserirNaHash("Pegada molhada perto do sofa",
"Marcos")` the name "Ricardo" is not in the roster and the roster has one entry, yet
`inserirNaHash("Pegada molhada perto do sofa", "Ricardo")` leaves the roster as it was: the
overwrite branch returns before the registration, although the lookup of the clue now returns
"Ricardo". -/
theorem c5_overwrite_skips_registration :
    suspeitoRegistrado
        (inserirNaHash Globais.inicial (some (cstr "Pegada molhada perto do sofa"))
          (some (cstr "Marcos"))).suspeitos (cstr "Ricardo") = false ∧
      (inserirNaHash Globais.inicial (some (cstr "Pegada molhada perto do sofa"))
          (some (cstr "Marcos"))).suspeitos.length < MAX_SUSPECTS ∧
      (inserirNaHash
          (inserirNaHash Globais.inicial (some (cstr "Pegada molhada perto do sofa"))
            (some (cstr "Marcos")))
          (some (cstr "Pegada molhada perto do sofa")) (some (cstr "Ricardo"))).suspeitos =
        [⟨cstr "Marcos", 0⟩] ∧
      encontrarSuspeito
          (inserirNaHash
            (inserirNaHash Globais.inicial (some (cstr "Pegada molhada perto do sofa"))
              (some (cstr "Marcos")))
            (some (cstr "Pegada molhada perto do sofa")) (some (cstr "Ricardo")))
          (some (cstr "Pegada molhada perto do sofa")) = some (cstr "Ricardo") := by
  decide

/-- C6 as stated fails: in `globaisLotados` the roster is full and the name "novo" is not in it;
the lookup of the key `kA` succeeds with `sA` before `inserirNaHash(kA, "novo")` and returns
"novo" after it, so a lookup that succeeded before the call does not return the same value. -/
theorem c6_counterexample :
    globaisLotados.suspeitos.length = MAX_SUSPECTS ∧
      suspeitoRegistrado globaisLotados.suspeitos (cstr "novo") = false ∧
      encontrarSuspeito globaisLotados (some (cstr "kA")) = some (cstr "sA") ∧
      encontrarSuspeito (inserirNaHash globaisLotados (some (cstr "kA")) (some (cstr "novo")))
        (some (cstr "kA")) = some (cstr "novo") ∧
      cstr "novo" ≠ cstr "sA" := by
  decide

/-- C6 amended: the roster of a reachable state never holds more than `MAX_SUSPECTS` entries;
and for every state whose roster is full and every `inserirNaHash(k, v)` with a name `v` not in
the roster, the roster is unchanged, `encontrarSuspeito(k)` returns `v`, and the lookup of every
key other than `k` returns after the call what it returned before it. -/
theorem c6_full_roster_refuses_registration :
    (∀ g : Globais, Alcancavel g → g.suspeitos.length ≤ MAX_SUSPECTS) ∧
      (∀ (g : Globais) (k v : CStr), g.suspeitos.length = MAX_SUSPECTS →
        suspeitoRegistrado g.suspeitos v = false →
        (inserirNaHash g (some k) (some v)).suspeitos = g.suspeitos ∧
          encontrarSuspeito (inserirNaHash g (some k) (some v)) (some k) = some v ∧
          (∀ x : CStr, x ≠ k →
            encontrarSuspeito (inserirNaHash g (some k) (some v)) (some x) =
              encontrarSuspeito g (some x))) := by
  refine ⟨alcancavel_length_le, ?_⟩
  intro g k v hfull _
  refine ⟨suspeitos_inserir_lotado g k v hfull, encontrar_inserir_mesma g k v, ?_⟩
  intro x hx
  exact encontrar_inserir_outra g (some k) (some v) x (by simpa using hx.symm)

/-- Witness of C6: with the full roster of `globaisLotados`, inserting the new key "kz" with the
new name "novo" leaves the roster and the lookup of "kA" unchanged and stores the association. -/
theorem c6_full_roster_refuses_registration_witness :
    (inserirNaHash globaisLotados (some (cstr "kz")) (some (cstr "novo"))).suspeitos =
        globaisLotados.suspeitos ∧
      encontrarSuspeito (inserirNaHash globaisLotados (some (cstr "kz")) (some (cstr "novo")))
        (some (cstr "kz")) = some (cstr "novo") ∧
      encontrarSuspeito (inserirNaHash globaisLotados (some (cstr "kz")) (some (cstr "novo")))
        (some (cstr "kA")) = encontrarSuspeito globaisLotados (some (cstr "kA")) :=
  have h := c6_full_roster_refuses_registration.2 globaisLotados (cstr "kz") (cstr "novo")
    (by decide) (by decide)
  ⟨h.1, h.2.1, h.2.2 (cstr "kA") (by decide)⟩

/-- C7: `verificarSuspeitoFinal` returns 0 for a null name and when no roster name equals the
accused name ignoring ASCII letter case; when some roster name matches ignoring case, it returns
1 if and only if the count of the matched entry, the first one in roster order whose name
matches, is at least 2, and 0 otherwise; such a first matching entry exists whenever some roster
name matches. -/
theorem c7_verdict_by_first_match (g : Globais) (nome : CStr) :
    verificarSuspeitoFinal g none = 0 ∧
      ((∀ s ∈ g.suspeitos, semCaixa s.nome ≠ semCaixa nome) →
        verificarSuspeitoFinal g (some nome) = 0) ∧
      (∀ (antes depois : List SuspeitoCount) (s : SuspeitoCount),
        g.suspeitos = antes ++ s :: depois →
        (∀ a ∈ antes, semCaixa a.nome ≠ semCaixa nome) →
        semCaixa s.nome = semCaixa nome →
        (verificarSuspeitoFinal g (some nome) = 1 ↔ 2 ≤ s.contagem) ∧
          (verificarSuspeitoFinal g (some nome) = 0 ↔ s.contagem < 2)) ∧
      ((∃ s ∈ g.suspeitos, semCaixa s.nome = semCaixa nome) →
        ∃ (antes : List SuspeitoCount) (s : SuspeitoCount) (depois : List SuspeitoCount),
          g.suspeitos = antes ++ s :: depois ∧
            (∀ a ∈ antes, semCaixa a.nome ≠ semCaixa nome) ∧
            semCaixa s.nome = semCaixa nome) := by
  refine ⟨rfl, fun h => verificarLoop_sem_igual _ _ h, ?_, primeiro_igual_existe _ _⟩
  intro antes depois s hg hantes hs
  have h := verificarLoop_primeiro_igual antes depois s nome hantes hs
  simp only [verificarSuspeitoFinal, hg, h]
  have h10 : ¬ ((1 : Int) = 0) := by decide
  have h01 : ¬ ((0 : Int) = 1) := by decide
  by_cases hc : s.contagem ≥ 2
  · rw [if_pos hc]
    exact ⟨⟨fun _ => hc, fun _ => rfl⟩, ⟨fun h1 => absurd h1 h10, fun h1 => by omega⟩⟩
  · rw [if_neg hc]
    exact ⟨⟨fun h1 => absurd h1 h01, fun h1 => absurd h1 hc⟩, ⟨fun _ => by omega, fun _ => rfl⟩⟩

/-- Witness of C7: after the exploration of `main` with the lines "e", "d", "s" the roster is
Marcos 2, Ricardo 0, Mariana 0; the name "Ana" matches no entry, and "RICARDO" matches the
second entry, whose count is below 2. -/
theorem c7_verdict_by_first_match_witness :
    verificarSuspeitoFinal (explorarMain [cstr "e\n", cstr "d\n", cstr "s\n"]).g
        (some (cstr "Ana")) = 0 ∧
      ((verificarSuspeitoFinal (explorarMain [cstr "e\n", cstr "d\n", cstr "s\n"]).g
          (some (cstr "RICARDO")) = 1 ↔ (2 : Int) ≤ 0) ∧
        (verificarSuspeitoFinal (explorarMain [cstr "e\n", cstr "d\n", cstr "s\n"]).g
          (some (cstr "RICARDO")) = 0 ↔ (0 : Int) < 2)) :=
  ⟨(c7_verdict_by_first_match (explorarMain [cstr "e\n", cstr "d\n", cstr "s\n"]).g
      (cstr "Ana")).2.1 (by decide),
   (c7_verdict_by_first_match (explorarMain [cstr "e\n", cstr "d\n", cstr "s\n"]).g
      (cstr "RICARDO")).2.2.1 [⟨cstr "Marcos", 2⟩] [⟨cstr "Mariana", 0⟩] ⟨cstr "Ricardo", 0⟩
      (by decide) (by decide) (by decide)⟩

/-- C8 as stated fails: the roster of `globaisCaixaDuasVisitas` is reached by
`inserirNaHash("a", "Marcos")`, `inserirNaHash("b", "MARCOS")` and two entries into a room whose
clue is "b"; its entry "MARCOS" has count exactly 2, yet `verificarSuspeitoFinal` returns 0 for
"MARCOS" and for "marcos", because the earlier entry "Marcos", whose count is 0, matches first. -/
theorem c8_counterexample :
    Alcancavel globaisCaixaDuasVisitas ∧
      globaisCaixaDuasVisitas.suspeitos = [⟨cstr "Marcos", 0⟩, ⟨cstr "MARCOS", 2⟩] ∧
      semCaixa (cstr "MARCOS") = semCaixa (cstr "marcos") ∧
      verificarSuspeitoFinal globaisCaixaDuasVisitas (some (cstr "MARCOS")) = 0 ∧
      verificarSuspeitoFinal globaisCaixaDuasVisitas (some (cstr "marcos")) = 0 :=
  ⟨Alcancavel.entrar ⟨salaB, PistaNode.null, _⟩
      (Alcancavel.entrar ⟨salaB, PistaNode.null, globaisCaixa⟩
        (alcancavel_inserirPares _ _ Alcancavel.inicial)),
   by decide, by decide, by decide, by decide⟩

/-- C8 amended: for every roster, reachable or not, and every entry of it such that no earlier
entry has a name equal to the accused name up to ASCII letter case: for every accused name that
equals the entry's name up to ASCII letter case, `verificarSuspeitoFinal` returns 0 if the
entry's count is exactly 1 and 1 if it is exactly 2. -/
theorem c8_threshold_at_first_match (g : Globais) (antes depois : List SuspeitoCount)
    (s : SuspeitoCount) (nome : CStr) (hg : g.suspeitos = antes ++ s :: depois)
    (hantes : ∀ a ∈ antes, semCaixa a.nome ≠ semCaixa nome)
    (hnome : semCaixa s.nome = semCaixa nome) :
    (s.contagem = 1 → verificarSuspeitoFinal g (some nome) = 0) ∧
      (s.contagem = 2 → verificarSuspeitoFinal g (some nome) = 1) := by
  have h := verificarLoop_primeiro_igual antes depois s nome hantes hnome
  simp only [verificarSuspeitoFinal, hg, h]
  constructor
  · intro h1
    rw [h1]
    rfl
  · intro h2
    rw [h2]
    rfl

/-- Witness of C8: in the roster of `main` after the lines "e", "e", "s" the entry "Mariana" is
the third one and has count 1, so accusing "mariana" is not supported. -/
theorem c8_threshold_at_first_match_witness :
    verificarSuspeitoFinal (explorarMain [cstr "e\n", cstr "e\n", cstr "s\n"]).g
      (some (cstr "mariana")) = 0 :=
  (c8_threshold_at_first_match (explorarMain [cstr "e\n", cstr "e\n", cstr "s\n"]).g
    [⟨cstr "Marcos", 1⟩, ⟨cstr "Ricardo", 0⟩] [] ⟨cstr "Mariana", 1⟩ (cstr "mariana")
    (by decide) (by decide) (by decide)).1 rfl

/-- C9, the code at the failing input: the line "e" leads from the prompt of the hall to the
prompt of `Sala de Estar`, where the count of "Marcos" is 1; the line "x" keeps the cursor, but
at the next prompt the count of "Marcos" is 2, because the room-entry step runs again. With the
lines "e", "x", "s" the exploration of `main` ends with Marcos 2 and the accusation of "Marcos"
is supported; with "e", "s" it ends with Marcos 1 and the accusation is not supported. -/
theorem c9_invalid_line_recounts_clue :
    proximoPrompt (noPrompt ⟨hall, PistaNode.null, globaisMain⟩) (cstr "e\n") =
        some promptSalaEstar ∧
      executarComando promptSalaEstar.pos (cstr "x\n") = some promptSalaEstar.pos ∧
      promptSalaEstar.g.suspeitos =
        [⟨cstr "Marcos", 1⟩, ⟨cstr "Ricardo", 0⟩, ⟨cstr "Mariana", 0⟩] ∧
      (proximoPrompt promptSalaEstar (cstr "x\n")).map (fun s => s.g.suspeitos) =
        some [⟨cstr "Marcos", 2⟩, ⟨cstr "Ricardo", 0⟩, ⟨cstr "Mariana", 0⟩] ∧
      (explorarMain [cstr "e\n", cstr "x\n", cstr "s\n"]).g.suspeitos =
        [⟨cstr "Marcos", 2⟩, ⟨cstr "Ricardo", 0⟩, ⟨cstr "Mariana", 0⟩] ∧
      verificarSuspeitoFinal (explorarMain [cstr "e\n", cstr "x\n", cstr "s\n"]).g
        (some (cstr "Marcos")) = 1 ∧
      (explorarMain [cstr "e\n", cstr "s\n"]).g.suspeitos =
        [⟨cstr "Marcos", 1⟩, ⟨cstr "Ricardo", 0⟩, ⟨cstr "Mariana", 0⟩] ∧
      verificarSuspeitoFinal (explorarMain [cstr "e\n", cstr "s\n"]).g
        (some (cstr "Marcos")) = 0 :=
  ⟨rfl, by decide⟩

/-- C10, the code at the failing input: the line "e" leads from the prompt of the hall to the
prompt of `Sala de Estar`, where the count of "Marcos" is 1; the blank line keeps the cursor, but
at the next prompt the count of "Marcos" is 2, because `continue` restarts the iteration and the
room-entry step runs again. With the lines "e", "", "s" the exploration of `main` ends with
Marcos 2 and the accusation of "Marcos" is supported, while the ledger lists the clue once. -/
theorem c10_blank_line_recounts_clue :
    proximoPrompt (noPrompt ⟨hall, PistaNode.null, globaisMain⟩) (cstr "e\n") =
        some promptSalaEstar ∧
      executarComando promptSalaEstar.pos (cstr "\n") = some promptSalaEstar.pos ∧
      promptSalaEstar.g.suspeitos =
        [⟨cstr "Marcos", 1⟩, ⟨cstr "Ricardo", 0⟩, ⟨cstr "Mariana", 0⟩] ∧
      (proximoPrompt promptSalaEstar (cstr "\n")).map (fun s => s.g.suspeitos) =
        some [⟨cstr "Marcos", 2⟩, ⟨cstr "Ricardo", 0⟩, ⟨cstr "Mariana", 0⟩] ∧
      (explorarMain [cstr "e\n", cstr "\n", cstr "s\n"]).g.suspeitos =
        [⟨cstr "Marcos", 2⟩, ⟨cstr "Ricardo", 0⟩, ⟨cstr "Mariana", 0⟩] ∧
      exibirPistas (explorarMain [cstr "e\n", cstr "\n", cstr "s\n"]).raizPistas =
        [cstr "Pegada molhada perto do sofa"] ∧
      verificarSuspeitoFinal (explorarMain [cstr "e\n", cstr "\n", cstr "s\n"]).g
        (some (cstr "Marcos")) = 1 :=
  ⟨rfl, by decide⟩

/-- C11: in `explorarSalas`, for every cursor room and every buffer whose first byte is `e` or
`E` the cursor becomes the left child when it exists, for `d` or `D` the right child when it
exists; when the requested child does not exist the cursor stays the same room; in all these
cases the loop does not end: it goes on with the next buffer. -/
theorem c11_move_or_stay (pos : Sala) (entrada : CStr) :
    ((entrada.headD 0 = ch 'e' ∨ entrada.headD 0 = ch 'E') →
        (pos.esq ≠ Sala.null → executarComando pos entrada = some pos.esq) ∧
          (pos.esq = Sala.null → executarComando pos entrada = some pos)) ∧
      ((entrada.headD 0 = ch 'd' ∨ entrada.headD 0 = ch 'D') →
        (pos.dir ≠ Sala.null → executarComando pos entrada = some pos.dir) ∧
          (pos.dir = Sala.null → executarComando pos entrada = some pos)) ∧
      ((entrada.headD 0 = ch 'e' ∨ entrada.headD 0 = ch 'E' ∨
          entrada.headD 0 = ch 'd' ∨ entrada.headD 0 = ch 'D') →
        ∀ (s : Sessao) (resto : List CStr),
          explorarLoop s (entrada :: resto) = explorarLoop (iterar s entrada) resto ∧
            (iterar s entrada).raizPistas = (entrarSala s).raizPistas ∧
            (iterar s entrada).g = (entrarSala s).g) := by
  refine ⟨?_, ?_, ?_⟩
  · intro h
    rw [executarComando_esquerda pos entrada h]
    exact ⟨fun hn => by rw [if_pos hn], fun hn => by rw [if_neg (not_not.2 hn)]⟩
  · intro h
    rw [executarComando_direita pos entrada h]
    exact ⟨fun hn => by rw [if_pos hn], fun hn => by rw [if_neg (not_not.2 hn)]⟩
  · intro h s resto
    have hsome : ∃ p, executarComando (entrarSala s).pos entrada = some p := by
      rcases h with h | h | h | h
      · exact ⟨_, executarComando_esquerda _ entrada (Or.inl h)⟩
      · exact ⟨_, executarComando_esquerda _ entrada (Or.inr h)⟩
      · exact ⟨_, executarComando_direita _ entrada (Or.inl h)⟩
      · exact ⟨_, executarComando_direita _ entrada (Or.inr h)⟩
    obtain ⟨p, hp⟩ := hsome
    refine ⟨explorarLoop_cons_iterar s entrada resto (by rw [hp]; exact Option.some_ne_none p),
      ?_, ?_⟩
    · simp only [iterar, hp]
    · simp only [iterar, hp]

/-- Witness of C11: in the hall the line "e" moves the cursor to `Sala de Estar`; in the leaf
`Sala B` the line "D" keeps the cursor where it is. -/
theorem c11_move_or_stay_witness :
    executarComando hall (cstr "e\n") = some salaEstar ∧
      executarComando salaB (cstr "D\n") = some salaB :=
  ⟨((c11_move_or_stay hall (cstr "e\n")).1 (Or.inl (by decide))).1 (by decide),
   ((c11_move_or_stay salaB (cstr "D\n")).2.1 (Or.inr (by decide))).2 (by decide)⟩

/-- C12 as stated fails: the room `salaPistaVazia` has the empty string as clue, which
`inserirNaHash("", "Marcos")` associated with the roster entry "Marcos"; two room-entry steps
raise the count of "Marcos" from 0 to 2, but the ledger stays empty, so its in-order list holds
the clue text zero times. -/
theorem c12_counterexample :
    salaPistaVazia.pista = some [] ∧
      encontrarSuspeito globaisPistaVazia (some []) = some (cstr "Marcos") ∧
      globaisPistaVazia.suspeitos = [⟨cstr "Marcos", 0⟩] ∧
      (entrarSala (entrarSala ⟨salaPistaVazia, PistaNode.null, globaisPistaVazia⟩)).g.suspeitos =
        [⟨cstr "Marcos", 2⟩] ∧
      exibirPistas
        (entrarSala (entrarSala ⟨salaPistaVazia, PistaNode.null, globaisPistaVazia⟩)).raizPistas =
        [] := by
  decide

/-- C12 amended: for every room whose clue is non-empty and associated in the hash table with a
suspect present in the roster, whose count is at most `INT_MAX - 2` so that neither increment of
the C `int` overflows, and every ledger that is a search tree: after two room-entry steps for
that room the count of that suspect's entry (the first one with that name) has risen by exactly
2 and every other entry is unchanged, the cursor is the same room, and the in-order list of the
ledger contains the clue text exactly once; both counts written are at most `INT_MAX`. -/
theorem c12_two_entries_count_twice (s : Sessao) (pista sus : CStr)
    (antes depois : List SuspeitoCount) (e : SuspeitoCount)
    (hpista : s.pos.pista = some pista) (hnaoVazia : pista ≠ [])
    (hsus : encontrarSuspeito s.g (some pista) = some sus)
    (hroster : s.g.suspeitos = antes ++ e :: depois)
    (hantes : ∀ a ∈ antes, a.nome ≠ sus) (he : e.nome = sus)
    (hlimite : e.contagem + 2 ≤ INT_MAX)
    (hledger : Crescente (exibirPistas s.raizPistas)) :
    (entrarSala (entrarSala s)).g.suspeitos = antes ++ ⟨e.nome, e.contagem + 2⟩ :: depois ∧
      (entrarSala (entrarSala s)).pos = s.pos ∧
      (exibirPistas (entrarSala (entrarSala s)).raizPistas).countP
        (fun t => decide (t = pista)) = 1 ∧
      (entrarSala s).g.suspeitos = antes ++ ⟨e.nome, e.contagem + 1⟩ :: depois ∧
      e.contagem + 1 ≤ INT_MAX ∧ e.contagem + 2 ≤ INT_MAX := by
  have hpos1 : (entrarSala s).pos = s.pos := pos_entrarSala s
  have htab1 : encontrarSuspeito (entrarSala s).g (some pista) = some sus := by
    simp only [encontrarSuspeito, hash_table_entrarSala]
    exact hsus
  have hr1 : (entrarSala s).g.suspeitos = antes ++ ⟨e.nome, e.contagem + 1⟩ :: depois := by
    rw [suspeitos_entrarSala, hpista]
    simp only [hsus, hroster]
    exact incrementar_primeiro antes depois e sus hantes he
  refine ⟨?_, ?_, ?_, hr1, by omega, hlimite⟩
  · rw [suspeitos_entrarSala, hpos1, hpista]
    simp only [htab1, hr1]
    rw [incrementar_primeiro antes depois ⟨e.nome, e.contagem + 1⟩ sus hantes he]
    simp only [add_assoc]
    rfl
  · rw [pos_entrarSala, hpos1]
  · have hasc : Crescente (exibirPistas (entrarSala (entrarSala s)).raizPistas) :=
      crescente_entrarSala _ (crescente_entrarSala s hledger)
    have hmem : pista ∈ exibirPistas (entrarSala (entrarSala s)).raizPistas := by
      rw [raizPistas_entrarSala, hpos1, hpista]
      exact (mem_exibir_inserir _ pista pista hnaoVazia).2 (Or.inl rfl)
    exact countP_eq_one_of_mem _ pista (crescente_nodup _ hasc) hmem

/-- Witness of C12: two room-entry steps in `Sala de Estar` with the globals of `main` raise the
count of "Marcos" to 2 and the ledger lists the clue once. -/
theorem c12_two_entries_count_twice_witness :
    (entrarSala (entrarSala ⟨salaEstar, PistaNode.null, globaisMain⟩)).g.suspeitos =
        [] ++ ⟨cstr "Marcos", 0 + 2⟩ :: [⟨cstr "Ricardo", 0⟩, ⟨cstr "Mariana", 0⟩] ∧
      (entrarSala (entrarSala ⟨salaEstar, PistaNode.null, globaisMain⟩)).pos = salaEstar ∧
      (exibirPistas
        (entrarSala (entrarSala ⟨salaEstar, PistaNode.null, globaisMain⟩)).raizPistas).countP
          (fun t => decide (t = cstr "Pegada molhada perto do sofa")) = 1 :=
  have h := c12_two_entries_count_twice ⟨salaEstar, PistaNode.null, globaisMain⟩
    (cstr "Pegada molhada perto do sofa") (cstr "Marcos") []
    [⟨cstr "Ricardo", 0⟩, ⟨cstr "Mariana", 0⟩] ⟨cstr "Marcos", 0⟩
    (by decide) (by decide) (by decide) (by decide) (by decide) (by decide) (by decide)
    List.Pairwise.nil
  ⟨h.1, h.2.1, h.2.2.1⟩

/-- C13: the room-entry step of `explorarSalas` creates no roster entry and is defined for every
state and room: the roster has the same length and the same names after the step as before, and
the ledger after it is the result of `inserirPista` with the room's clue; when the clue has no
association in the hash table, or resolves to a suspect name that is not in the roster, the
roster with all its counts is unchanged, and a non-empty clue is in the ledger afterwards. -/
theorem c13_entry_never_registers (s : Sessao) :
    (entrarSala s).g.suspeitos.length = s.g.suspeitos.length ∧
      (entrarSala s).g.suspeitos.map SuspeitoCount.nome =
        s.g.suspeitos.map SuspeitoCount.nome ∧
      (entrarSala s).raizPistas = inserirPista s.raizPistas s.pos.pista ∧
      (∀ pista : CStr, s.pos.pista = some pista →
        (encontrarSuspeito s.g (some pista) = none ∨
          ∃ sus, encontrarSuspeito s.g (some pista) = some sus ∧
            ∀ a ∈ s.g.suspeitos, a.nome ≠ sus) →
        (entrarSala s).g.suspeitos = s.g.suspeitos ∧
          (pista ≠ [] → pista ∈ exibirPistas (entrarSala s).raizPistas)) := by
  refine ⟨length_suspeitos_entrarSala s, ?_, raizPistas_entrarSala s, ?_⟩
  · rw [suspeitos_entrarSala]
    cases s.pos.pista with
    | none => rfl
    | some pista =>
      simp only
      cases encontrarSuspeito s.g (some pista) with
      | none => rfl
      | some sus => exact map_nome_incrementar _ _
  · intro pista hpista h
    constructor
    · rw [suspeitos_entrarSala, hpista]
      rcases h with h | ⟨sus, h, hfora⟩
      · simp only [h]
      · simp only [h]
        exact incrementar_ausente _ _ hfora
    · intro hne
      rw [raizPistas_entrarSala, hpista]
      exact (mem_exibir_inserir _ pista pista hne).2 (Or.inl rfl)

/-- Witness of C13: the clue "b" of `salaB` has no association in the table of `main`, so the
room-entry step leaves the roster of `main` unchanged and puts "b" into the ledger. -/
theorem c13_entry_never_registers_witness :
    (entrarSala ⟨salaB, PistaNode.null, globaisMain⟩).g.suspeitos = globaisMain.suspeitos ∧
      cstr "b" ∈ exibirPistas (entrarSala ⟨salaB, PistaNode.null, globaisMain⟩).raizPistas :=
  have h := (c13_entry_never_registers ⟨salaB, PistaNode.null, globaisMain⟩).2.2.2 (cstr "b")
    (by decide) (Or.inl (by decide))
  ⟨h.1, h.2 (by decide)⟩

/-- C14: on the map and associations of `main`, with the input lines "e", "e", "s" (as buffers
and as the byte stream from which `fgets` reads them) the exploration ends in `Biblioteca`, the
in-order list of the ledger is "Pagina rasgada de um diario", "Pegada molhada perto do sofa", the
tallies are Marcos 1, Ricardo 0, Mariana 1, and `verificarSuspeitoFinal("Marcos")` returns 0. -/
theorem c14_end_to_end_left_left :
    buffersLidos (cstr "e\ne\ns\n") = [cstr "e\n", cstr "e\n", cstr "s\n"] ∧
      (explorarMain [cstr "e\n", cstr "e\n", cstr "s\n"]).pos =
        criarSala (cstr "Biblioteca") (some (cstr "Pagina rasgada de um diario")) ∧
      exibirPistas (explorarMain [cstr "e\n", cstr "e\n", cstr "s\n"]).raizPistas =
        [cstr "Pagina rasgada de um diario", cstr "Pegada molhada perto do sofa"] ∧
      (explorarMain [cstr "e\n", cstr "e\n", cstr "s\n"]).g.suspeitos =
        [⟨cstr "Marcos", 1⟩, ⟨cstr "Ricardo", 0⟩, ⟨cstr "Mariana", 1⟩] ∧
      verificarSuspeitoFinal (explorarMain [cstr "e\n", cstr "e\n", cstr "s\n"]).g
        (some (cstr "Marcos")) = 0 := by
  decide

/-- C16: `inserirPista` is idempotent and ignores empty text: inserting into a clue tree (a
search tree, as every tree built by `inserirPista` from the empty one is) a text that it already
contains returns the same tree; for every tree whatever, inserting `x` a second time changes
nothing; and inserting the empty string or the null pointer returns the tree unchanged. -/
theorem c16_insert_idempotent (t : PistaNode) (x : CStr) :
    (Crescente (exibirPistas t) → x ∈ exibirPistas t → inserirPista t (some x) = t) ∧
      (∀ textos : List CStr, x ∈ exibirPistas (inserirPistas PistaNode.null textos) →
        inserirPista (inserirPistas PistaNode.null textos) (some x) =
          inserirPistas PistaNode.null textos) ∧
      inserirPista (inserirPista t (some x)) (some x) = inserirPista t (some x) ∧
      inserirPista t (some []) = t ∧
      inserirPista t none = t := by
  refine ⟨inserirPista_presente t x, ?_, inserirPista_idem t x, inserirPista_vazio t,
    inserirPista_null t⟩
  intro textos hx
  exact inserirPista_presente _ x
    (crescente_inserirPistas textos PistaNode.null List.Pairwise.nil) hx

/-- Witness of C16: the tree built from "B", "A", "C" contains "A", and inserting "A" again
returns the same tree. -/
theorem c16_insert_idempotent_witness :
    inserirPista (inserirPistas PistaNode.null [cstr "B", cstr "A", cstr "C"])
        (some (cstr "A")) =
      inserirPistas PistaNode.null [cstr "B", cstr "A", cstr "C"] :=
  (c16_insert_idempotent PistaNode.null (cstr "A")).2.1 [cstr "B", cstr "A", cstr "C"]
    (by decide)

/-- C18: `hash_func(k)` is below `HASH_SIZE` for every string `k`, so the bucket index is in
range; `inserirNaHash` preserves the well-formedness of the table (no chain holds a key twice,
every node is in the bucket of its key); every state reachable from the empty table is
well-formed; and in a well-formed table no two chain nodes anywhere have the same key. -/
theorem c18_table_well_formed :
    (∀ k : CStr, hash_func k < HASH_SIZE) ∧
      (∀ (g : Globais) (chave valor : Option CStr),
        TabelaBemFormada g → TabelaBemFormada (inserirNaHash g chave valor)) ∧
      (∀ g : Globais, Alcancavel g → TabelaBemFormada g) ∧
      (∀ g : Globais, Alcancavel g → (chavesDaTabela g).Nodup) :=
  ⟨hash_func_lt, bemFormada_inserirNaHash, bemFormada_alcancavel,
    fun g h => nodup_chavesDaTabela g (bemFormada_alcancavel g h)⟩

/-- Witness of C18: the table of `main` is well-formed and holds its five keys once each. -/
theorem c18_table_well_formed_witness :
    TabelaBemFormada globaisMain ∧ (chavesDaTabela globaisMain).Nodup ∧
      (chavesDaTabela globaisMain).length = 5 :=
  ⟨c18_table_well_formed.2.2.1 globaisMain (alcancavel_inserirPares _ _ Alcancavel.inicial),
   c18_table_well_formed.2.2.2 globaisMain (alcancavel_inserirPares _ _ Alcancavel.inicial),
   by decide⟩

/-- C15 as stated fails. Of the two lines `linhasLongas` none begins with `s` or `S`, but the
first one is longer than the buffer: `fgets` delivers it in two pieces, the second piece begins
with `s`, and the exploration of `main` ends there, in the hall, with the line "e" unread and the
ledger empty. And with a `NULL` map `explorarSalas` returns at once: no room is entered and the
line "s" is left unread. -/
theorem c15_counterexample :
    (∀ l ∈ linhasLongas, ehSair (bufferDaLinha l) = false) ∧
      buffersLidos (juntarLinhas linhasLongas) =
        [List.replicate 199 (ch 'x'), cstr "s\n", cstr "e\n"] ∧
      (explorarSalasRastro hall PistaNode.null globaisMain
        (buffersLidos (juntarLinhas linhasLongas))).2.2 = [cstr "e\n"] ∧
      (explorarMain (buffersLidos (juntarLinhas linhasLongas))).pos = hall ∧
      exibirPistas (explorarMain (buffersLidos (juntarLinhas linhasLongas))).raizPistas = [] ∧
      (explorarSalasRastro Sala.null PistaNode.null globaisMain [cstr "s\n"]).2 =
        ([], [cstr "s\n"]) := by
  decide

/-- C15 amended: for every non-empty map and every finite list of input lines of at most
`MAX_INPUT - 2` bytes each, `fgets` delivers one buffer per line and `explorarSalas` returns: the
buffers it reads are those before the first one that begins with `s` or `S` and that one, or all
of them if there is none; one room-entry step runs per buffer read, plus one when the input is
exhausted; the state returned is the one accumulated by these steps; and the buffers after the
first exit line are left unread. For every byte stream the buffers delivered, put together, are
the stream. -/
theorem c15_loop_ends_at_first_exit_line (nome : CStr) (pista : Option CStr) (esq dir : Sala)
    (raizPistas : PistaNode) (g : Globais) (linhas : List CStr)
    (hlinhas : ∀ l ∈ linhas, LinhaCurta l) :
    buffersLidos (juntarLinhas linhas) = linhas.map bufferDaLinha ∧
      (∀ stdin : List Nat, (buffersLidos stdin).flatten = stdin) ∧
      (explorarSalasRastro (Sala.node nome pista esq dir) raizPistas g
          (linhas.map bufferDaLinha)).1 =
        explorarSalas (Sala.node nome pista esq dir) raizPistas g (linhas.map bufferDaLinha) ∧
      explorarSalas (Sala.node nome pista esq dir) raizPistas g (linhas.map bufferDaLinha) =
        entrarSala
          (((linhas.map bufferDaLinha).takeWhile (fun b => !ehSair b)).foldl iterar
            ⟨Sala.node nome pista esq dir, raizPistas, g⟩) ∧
      (explorarSalasRastro (Sala.node nome pista esq dir) raizPistas g
          (linhas.map bufferDaLinha)).2.1.length =
        ((linhas.map bufferDaLinha).takeWhile (fun b => !ehSair b)).length + 1 ∧
      (explorarSalasRastro (Sala.node nome pista esq dir) raizPistas g
          (linhas.map bufferDaLinha)).2.2 =
        ((linhas.map bufferDaLinha).dropWhile (fun b => !ehSair b)).tail := by
  have hcurso := explorarLoopRastro_curso ⟨Sala.node nome pista esq dir, raizPistas, g⟩
    (linhas.map bufferDaLinha)
  have hfst := explorarLoopRastro_fst ⟨Sala.node nome pista esq dir, raizPistas, g⟩
    (linhas.map bufferDaLinha)
  refine ⟨buffersLidos_juntarLinhas linhas hlinhas, buffersLidos_flatten, hfst, ?_,
    hcurso.2.1, hcurso.2.2⟩
  show explorarLoop _ _ = _
  rw [← hfst]
  exact hcurso.1

/-- Witness of C15: with the lines "e", "x", "s", "d" the exploration of `main` reads three
buffers, runs three room-entry steps and leaves the buffer of "d" unread. -/
theorem c15_loop_ends_at_first_exit_line_witness :
    buffersLidos (cstr "e\nx\ns\nd\n") = [cstr "e\n", cstr "x\n", cstr "s\n", cstr "d\n"] ∧
      (explorarSalasRastro hall PistaNode.null globaisMain
          [cstr "e\n", cstr "x\n", cstr "s\n", cstr "d\n"]).2.1.length = 2 + 1 ∧
      (explorarSalasRastro hall PistaNode.null globaisMain
          [cstr "e\n", cstr "x\n", cstr "s\n", cstr "d\n"]).2.2 = [cstr "d\n"] :=
  have h := c15_loop_ends_at_first_exit_line (cstr "Hall de Entrada") none salaEstar cozinha
    PistaNode.null globaisMain [cstr "e", cstr "x", cstr "s", cstr "d"] (by decide)
  ⟨h.1, h.2.2.2.2.1, h.2.2.2.2.2⟩

/-- C17: an input line of at most `MAX_INPUT - 2` bytes plus newline is delivered by `fgets` in
one buffer, and its effect in `explorarSalas` on the cursor, the ledger, the tallies and on
whether the loop ends depends only on its first byte taken case-insensitively: two such lines
with the same first byte up to ASCII case give the same command result for every cursor, the same
state at the next prompt, and the same final state whatever input follows; `e` and `E` both move
left, `d` and `D` both move right, `s` and `S` both end the exploration. -/
theorem c17_effect_by_first_byte (l1 l2 : CStr) (h1 : LinhaCurta l1) (h2 : LinhaCurta l2)
    (hc : tolower ((bufferDaLinha l1).headD 0) = tolower ((bufferDaLinha l2).headD 0)) :
    (∀ resto : List Nat,
        fgets MAX_INPUT (l1 ++ ch '\n' :: resto) = some (bufferDaLinha l1, resto)) ∧
      (∀ pos : Sala,
        executarComando pos (bufferDaLinha l1) = executarComando pos (bufferDaLinha l2)) ∧
      (∀ s : Sessao,
        proximoPrompt s (bufferDaLinha l1) = proximoPrompt s (bufferDaLinha l2)) ∧
      (∀ (atual : Sala) (raizPistas : PistaNode) (g : Globais) (resto : List Nat),
        explorarSalas atual raizPistas g (buffersLidos (l1 ++ ch '\n' :: resto)) =
          explorarSalas atual raizPistas g (buffersLidos (l2 ++ ch '\n' :: resto))) ∧
      (∀ pos : Sala,
        ((bufferDaLinha l1).headD 0 = ch 'e' ∨ (bufferDaLinha l1).headD 0 = ch 'E' →
          executarComando pos (bufferDaLinha l1) =
            some (if pos.esq ≠ Sala.null then pos.esq else pos)) ∧
        ((bufferDaLinha l1).headD 0 = ch 'd' ∨ (bufferDaLinha l1).headD 0 = ch 'D' →
          executarComando pos (bufferDaLinha l1) =
            some (if pos.dir ≠ Sala.null then pos.dir else pos)) ∧
        ((bufferDaLinha l1).headD 0 = ch 's' ∨ (bufferDaLinha l1).headD 0 = ch 'S' →
          executarComando pos (bufferDaLinha l1) = none)) := by
  have hexec : ∀ pos : Sala,
      executarComando pos (bufferDaLinha l1) = executarComando pos (bufferDaLinha l2) :=
    fun pos => executarComando_congr pos _ _ hc
  refine ⟨fun resto => fgets_linha l1 resto h1, hexec, ?_, ?_, ?_⟩
  · intro s
    simp only [proximoPrompt, hexec]
  · intro atual raizPistas g resto
    rw [buffersLidos_linha l1 resto h1, buffersLidos_linha l2 resto h2]
    cases atual with
    | null => rfl
    | node n p e d => simp only [explorarSalas, explorarLoop, hexec]
  · intro pos
    refine ⟨executarComando_esquerda pos _, executarComando_direita pos _, ?_⟩
    intro h
    rw [executarComando_eq_none_iff]
    simpa [ehSair] using h

/-- Witness of C17: the lines "e" and "Esquerda" begin with the same letter up to case, so from
the prompt of the hall both lead to the same next prompt and to the same final count of "Marcos"
when the line "s" follows. -/
theorem c17_effect_by_first_byte_witness :
    executarComando hall (bufferDaLinha (cstr "e")) =
        executarComando hall (bufferDaLinha (cstr "Esquerda")) ∧
      explorarSalas hall PistaNode.null globaisMain
          (buffersLidos (cstr "e" ++ ch '\n' :: cstr "s\n")) =
        explorarSalas hall PistaNode.null globaisMain
          (buffersLidos (cstr "Esquerda" ++ ch '\n' :: cstr "s\n")) :=
  have h := c17_effect_by_first_byte (cstr "e") (cstr "Esquerda") (by decide) (by decide)
    (by decide)
  ⟨h.2.1 hall, h.2.2.2.1 hall PistaNode.null globaisMain (cstr "s\n")⟩

/-- C19: for every map and every input, every room that `explorarSalas` enters is a room of the
map; from one iteration to the next the cursor stays or moves to a child, never back up; every
room entered later lies in the subtree of every room entered earlier, so the rooms entered are on
one way down from the root; the number of successful moves is at most the height of the map; for
a non-empty map the first room entered is the root and the last one is the final cursor. The map
of `main` has height 2, so a session there has at most 2 successful moves. -/
theorem c19_cursor_only_descends (atual : Sala) (raizPistas : PistaNode) (g : Globais)
    (stdin : List CStr) :
    (∀ r ∈ (explorarSalasRastro atual raizPistas g stdin).2.1, SalaDe r atual ∧ r ≠ Sala.null) ∧
      (explorarSalasRastro atual raizPistas g stdin).2.1.Chain'
        (fun a b => b = a ∨ Filho b a) ∧
      (explorarSalasRastro atual raizPistas g stdin).2.1.Pairwise (fun a b => SalaDe b a) ∧
      contarMovimentos (explorarSalasRastro atual raizPistas g stdin).2.1 ≤ atual.altura ∧
      (atual ≠ Sala.null →
        (explorarSalasRastro atual raizPistas g stdin).2.1.head? = some atual ∧
          (explorarSalasRastro atual raizPistas g stdin).2.1.getLast? =
            some (explorarSalas atual raizPistas g stdin).pos) ∧
      hall.altura = 2 ∧
      contarMovimentos (explorarSalasRastro hall PistaNode.null globaisMain stdin).2.1 ≤ 2 := by
  have geral : ∀ (a : Sala),
      (∀ r ∈ (explorarSalasRastro a raizPistas g stdin).2.1, SalaDe r a ∧ r ≠ Sala.null) ∧
      (explorarSalasRastro a raizPistas g stdin).2.1.Chain' (fun a b => b = a ∨ Filho b a) ∧
      (explorarSalasRastro a raizPistas g stdin).2.1.Pairwise (fun a b => SalaDe b a) ∧
      contarMovimentos (explorarSalasRastro a raizPistas g stdin).2.1 ≤ a.altura ∧
      (a ≠ Sala.null →
        (explorarSalasRastro a raizPistas g stdin).2.1.head? = some a ∧
          (explorarSalasRastro a raizPistas g stdin).2.1.getLast? =
            some (explorarSalas a raizPistas g stdin).pos) := by
    intro a
    cases a with
    | null =>
      refine ⟨?_, List.chain'_nil, List.Pairwise.nil, Nat.zero_le _, fun h => absurd rfl h⟩
      intro r hr
      exact absurd hr (List.not_mem_nil r)
    | node n p e d =>
      obtain ⟨h1, h2, h3, h4, h5⟩ :=
        rastro_invariante ⟨Sala.node n p e d, raizPistas, g⟩ stdin (by simp)
      obtain ⟨t, ht⟩ := rastro_nao_vazio ⟨Sala.node n p e d, raizPistas, g⟩ stdin
      have hfst := explorarLoopRastro_fst ⟨Sala.node n p e d, raizPistas, g⟩ stdin
      refine ⟨h1, h2, h3, ?_, fun _ => ⟨?_, ?_⟩⟩
      · unfold Sala.altura
        exact Nat.le_sub_one_of_lt h4
      · show (explorarLoopRastro ⟨Sala.node n p e d, raizPistas, g⟩ stdin).2.1.head? = _
        rw [ht]
        rfl
      · show (explorarLoopRastro ⟨Sala.node n p e d, raizPistas, g⟩ stdin).2.1.getLast? =
          some (explorarLoop ⟨Sala.node n p e d, raizPistas, g⟩ stdin).pos
        rw [← hfst]
        exact h5
  obtain ⟨h1, h2, h3, h4, h5⟩ := geral atual
  have hmain : ∀ (a : Sala) (r : PistaNode) (gl : Globais) (inp : List CStr),
      contarMovimentos (explorarSalasRastro a r gl inp).2.1 ≤ a.altura := by
    intro a r gl inp
    cases a with
    | null => exact Nat.zero_le _
    | node n p e d =>
      have h := (rastro_invariante ⟨Sala.node n p e d, r, gl⟩ inp (by simp)).2.2.2.1
      unfold Sala.altura
      exact Nat.le_sub_one_of_lt h
  exact ⟨h1, h2, h3, h4, h5, by decide, hmain hall PistaNode.null globaisMain stdin⟩

/-- Witness of C19: in the exploration of `main` with the lines "e", "x", "d", "e", "s" the rooms
entered are the hall, `Sala de Estar` twice and `Sala de Jantar` twice: two successful moves, and
the final cursor is `Sala de Jantar`. -/
theorem c19_cursor_only_descends_witness :
    (explorarSalasRastro hall PistaNode.null globaisMain
        [cstr "e\n", cstr "x\n", cstr "d\n", cstr "e\n", cstr "s\n"]).2.1.head? = some hall ∧
      (explorarSalasRastro hall PistaNode.null globaisMain
        [cstr "e\n", cstr "x\n", cstr "d\n", cstr "e\n", cstr "s\n"]).2.1.getLast? =
        some (explorarSalas hall PistaNode.null globaisMain
          [cstr "e\n", cstr "x\n", cstr "d\n", cstr "e\n", cstr "s\n"]).pos ∧
      contarMovimentos (explorarSalasRastro hall PistaNode.null globaisMain
        [cstr "e\n", cstr "x\n", cstr "d\n", cstr "e\n", cstr "s\n"]).2.1 = 2 :=
  have h := (c19_cursor_only_descends hall PistaNode.null globaisMain
    [cstr "e\n", cstr "x\n", cstr "d\n", cstr "e\n", cstr "s\n"]).2.2.2.2.1 (by decide)
  ⟨h.1, h.2, by decide⟩

/-- C20: on the map and associations of `main`, for every input that consists only of move
commands entering an existing child, up to the first exit line or the end of the input:
`verificarSuspeitoFinal` returns 0 for "Ricardo" and for "Mariana", and it returns 1 for
"Marcos" if and only if the moves are left, then right; and whatever name is accused, a result
of 1 needs these two moves and a name equal to "Marcos" up to ASCII letter case. -/
theorem c20_only_left_right_supports (stdin : List CStr)
    (h : soMovimentos hall stdin = true) :
    verificarSuspeitoFinal (explorarMain stdin).g (some (cstr "Ricardo")) = 0 ∧
      verificarSuspeitoFinal (explorarMain stdin).g (some (cstr "Mariana")) = 0 ∧
      (verificarSuspeitoFinal (explorarMain stdin).g (some (cstr "Marcos")) = 1 ↔
        movimentos stdin = [Direcao.esquerda, Direcao.direita]) ∧
      (∀ nome : CStr, verificarSuspeitoFinal (explorarMain stdin).g (some nome) = 1 →
        movimentos stdin = [Direcao.esquerda, Direcao.direita] ∧
          semCaixa nome = semCaixa (cstr "Marcos")) := by
  have hloop := explorarLoop_soMovimentos ⟨hall, PistaNode.null, globaisMain⟩ stdin h
  have hmain : explorarMain stdin =
      entrarSala ((movimentos stdin).foldl descer ⟨hall, PistaNode.null, globaisMain⟩) :=
    hloop.1
  have hmem := caminhoValido_hall (movimentos stdin) hloop.2
  have todos : ∀ ds ∈ caminhosDoMapa,
      verificarSuspeitoFinal
          (entrarSala (ds.foldl descer ⟨hall, PistaNode.null, globaisMain⟩)).g
          (some (cstr "Ricardo")) = 0 ∧
        verificarSuspeitoFinal
          (entrarSala (ds.foldl descer ⟨hall, PistaNode.null, globaisMain⟩)).g
          (some (cstr "Mariana")) = 0 ∧
        (verificarSuspeitoFinal
          (entrarSala (ds.foldl descer ⟨hall, PistaNode.null, globaisMain⟩)).g
          (some (cstr "Marcos")) = 1 ↔ ds = [Direcao.esquerda, Direcao.direita]) := by
    decide
  have contagens : ∀ ds ∈ caminhosDoMapa,
      ∀ e ∈ (entrarSala (ds.foldl descer ⟨hall, PistaNode.null, globaisMain⟩)).g.suspeitos,
        2 ≤ e.contagem → ds = [Direcao.esquerda, Direcao.direita] ∧ e.nome = cstr "Marcos" := by
    decide
  rw [hmain]
  obtain ⟨t1, t2, t3⟩ := todos (movimentos stdin) hmem
  refine ⟨t1, t2, t3, ?_⟩
  intro nome hnome
  obtain ⟨e, he, hc, hn⟩ := verificarLoop_um _ nome hnome
  obtain ⟨hds, hm⟩ := contagens (movimentos stdin) hmem e he hc
  exact ⟨hds, by rw [← hn, hm]⟩

/-- Witness of C20: the lines "e", "D", "s" are successful moves left and right, and accusing
"Marcos" is supported. -/
theorem c20_only_left_right_supports_witness :
    verificarSuspeitoFinal (explorarMain [cstr "e\n", cstr "D\n", cstr "s\n"]).g
      (some (cstr "Marcos")) = 1 :=
  (c20_only_left_right_supports [cstr "e\n", cstr "D\n", cstr "s\n"] (by decide)).2.2.1.2
    (by decide)

end DetectiveQuest
